import Mathlib

/-!
Verification of the lyricweb presentation-state and slide-addressing engine.

The definitions below are a shallow embedding of the Rust code in
src/lyricweb/src/model.rs, src/lyricweb/src/model/slide.rs,
src/lyricweb/src/model/helpers.rs and src/openlyrics/src/types.rs.

Conventions of the embedding:
- Rust u32 / usize / u64 become Nat; isize becomes Int.  Overflow matters only
  in checked_add_signed, where the usize range check is kept explicitly.
- BTreeMap is modelled as an association list (BMap) iterated in list order;
  btree iteration order corresponds to the list order of the model.
- Code that can panic (BTreeMap indexing, Vec indexing, Vec::swap) is modelled
  in the Except String monad, with Except.error standing for a panic.
- Rust String functions that the code uses (split on a char, trim,
  starts_with, integer formatting) are modelled by executable list-of-char
  functions so that all definitions reduce by rfl or decide.
-/

/-! ## Data model: openlyrics types (src/openlyrics/src/types.rs) -/

structure Title where
  lang : Option String
  translit : Option String
  original : Option Bool
  title : String
deriving DecidableEq

structure Titles where
  titles : List Title
deriving DecidableEq

structure Author where
  author_type : Option String
  lang : Option String
  name : String
deriving DecidableEq

structure Authors where
  authors : List Author
deriving DecidableEq

inductive Tempo where
  | Bpm (bpm : Nat)
  | Text (text : String)
deriving DecidableEq

structure Songbook where
  name : String
  entry : Option String
deriving DecidableEq

structure Songbooks where
  songbooks : List Songbook
deriving DecidableEq

/-- The openlyrics theme entry (types.rs Theme, distinct from the model Theme). -/
structure SongTheme where
  lang : Option String
  translit : Option String
  title : String
deriving DecidableEq

structure Themes where
  themes : List SongTheme
deriving DecidableEq

structure Comments where
  comments : List String
deriving DecidableEq

structure Properties where
  titles : Titles
  authors : Authors
  copyright : Option String
  ccli_no : Option Nat
  released : Option String
  transposition : Option Int
  tempo : Option Tempo
  key : Option String
  time_signature : Option String
  variant : Option String
  publisher : Option String
  version : Option String
  keywords : Option String
  verse_order : Option String
  songbooks : Songbooks
  themes : Themes
  comments : Comments
deriving DecidableEq

inductive VerseContent where
  | Text (text : String)
  | Chord (name root bass chord_structure : Option String) (upbeat : Option Bool)
      (contents : List VerseContent)
  | Br
  | Comment (comment : String)
  | Tag (name : String) (contents : List VerseContent)

mutual

def VerseContent.decEq : (a b : VerseContent) → Decidable (a = b)
  | .Text t1, .Text t2 =>
    @decidable_of_iff _ _ (by rw [VerseContent.Text.injEq]) inferInstance
  | .Chord n1 r1 b1 s1 u1 c1, .Chord n2 r2 b2 s2 u2 c2 =>
    have hl : Decidable (c1 = c2) := VerseContent.decEqList c1 c2
    @decidable_of_iff _ _ (by rw [VerseContent.Chord.injEq]) inferInstance
  | .Br, .Br => isTrue rfl
  | .Comment t1, .Comment t2 =>
    @decidable_of_iff _ _ (by rw [VerseContent.Comment.injEq]) inferInstance
  | .Tag n1 c1, .Tag n2 c2 =>
    have hl : Decidable (c1 = c2) := VerseContent.decEqList c1 c2
    @decidable_of_iff _ _ (by rw [VerseContent.Tag.injEq]) inferInstance
  | .Text _, .Chord _ _ _ _ _ _ => isFalse (fun h => VerseContent.noConfusion h)
  | .Text _, .Br => isFalse (fun h => VerseContent.noConfusion h)
  | .Text _, .Comment _ => isFalse (fun h => VerseContent.noConfusion h)
  | .Text _, .Tag _ _ => isFalse (fun h => VerseContent.noConfusion h)
  | .Chord _ _ _ _ _ _, .Text _ => isFalse (fun h => VerseContent.noConfusion h)
  | .Chord _ _ _ _ _ _, .Br => isFalse (fun h => VerseContent.noConfusion h)
  | .Chord _ _ _ _ _ _, .Comment _ => isFalse (fun h => VerseContent.noConfusion h)
  | .Chord _ _ _ _ _ _, .Tag _ _ => isFalse (fun h => VerseContent.noConfusion h)
  | .Br, .Text _ => isFalse (fun h => VerseContent.noConfusion h)
  | .Br, .Chord _ _ _ _ _ _ => isFalse (fun h => VerseContent.noConfusion h)
  | .Br, .Comment _ => isFalse (fun h => VerseContent.noConfusion h)
  | .Br, .Tag _ _ => isFalse (fun h => VerseContent.noConfusion h)
  | .Comment _, .Text _ => isFalse (fun h => VerseContent.noConfusion h)
  | .Comment _, .Chord _ _ _ _ _ _ => isFalse (fun h => VerseContent.noConfusion h)
  | .Comment _, .Br => isFalse (fun h => VerseContent.noConfusion h)
  | .Comment _, .Tag _ _ => isFalse (fun h => VerseContent.noConfusion h)
  | .Tag _ _, .Text _ => isFalse (fun h => VerseContent.noConfusion h)
  | .Tag _ _, .Chord _ _ _ _ _ _ => isFalse (fun h => VerseContent.noConfusion h)
  | .Tag _ _, .Br => isFalse (fun h => VerseContent.noConfusion h)
  | .Tag _ _, .Comment _ => isFalse (fun h => VerseContent.noConfusion h)

def VerseContent.decEqList : (a b : List VerseContent) → Decidable (a = b)
  | [], [] => isTrue rfl
  | a :: as, b :: bs =>
    have h1 : Decidable (a = b) := VerseContent.decEq a b
    have h2 : Decidable (as = bs) := VerseContent.decEqList as bs
    @decidable_of_iff _ _ (by rw [List.cons.injEq]) inferInstance
  | [], _ :: _ => isFalse (fun h => List.noConfusion h)
  | _ :: _, [] => isFalse (fun h => List.noConfusion h)

end

instance : DecidableEq VerseContent := VerseContent.decEq

structure Lines where
  break_optional : Option String
  part : Option String
  repeat_count : Option Nat
  contents : List VerseContent
deriving DecidableEq

inductive InstrumentChord where
  | mk (name root bass chord_structure : Option String) (upbeat : Option Bool)
      (contents : List InstrumentChord)

mutual

def InstrumentChord.decEq : (a b : InstrumentChord) → Decidable (a = b)
  | .mk n1 r1 b1 s1 u1 c1, .mk n2 r2 b2 s2 u2 c2 =>
    have hl : Decidable (c1 = c2) := InstrumentChord.decEqList c1 c2
    @decidable_of_iff _ _ (by rw [InstrumentChord.mk.injEq]) inferInstance

def InstrumentChord.decEqList : (a b : List InstrumentChord) → Decidable (a = b)
  | [], [] => isTrue rfl
  | a :: as, b :: bs =>
    have h1 : Decidable (a = b) := InstrumentChord.decEq a b
    have h2 : Decidable (as = bs) := InstrumentChord.decEqList as bs
    @decidable_of_iff _ _ (by rw [List.cons.injEq]) inferInstance
  | [], _ :: _ => isFalse (fun h => List.noConfusion h)
  | _ :: _, [] => isFalse (fun h => List.noConfusion h)

end

instance : DecidableEq InstrumentChord := InstrumentChord.decEq

inductive InstrumentContent where
  | Chord (chord : InstrumentChord)
  | Beat (contents : List InstrumentChord)
deriving DecidableEq

structure InstrumentLines where
  contents : List InstrumentContent
deriving DecidableEq

inductive LyricEntry where
  | Verse (name : String) (lang : Option String) (translit : Option String)
      (lines : List Lines)
  | Instrument (name : String) (lines : List InstrumentLines)
deriving DecidableEq

structure Lyrics where
  lyrics : List LyricEntry
deriving DecidableEq

structure Song where
  properties : Properties
  lyrics : Lyrics
deriving DecidableEq

/-- LyricEntry::name (types.rs line 182). -/
def LyricEntry.name : LyricEntry → String
  | .Verse name _ _ _ => name
  | .Instrument name _ => name

deriving instance DecidableEq for Except

/-! ## Model data types (src/lyricweb/src/model.rs) -/

/-- The presentation theme (model.rs Theme). -/
structure Theme where
  heading_size : Nat
  body_size : Nat
  heading_colour : String
  body_colour : String
  background_colour : String
  font_family : String
deriving DecidableEq

/-- Theme::default (model.rs line 317). -/
def Theme.default : Theme :=
  { heading_size := 5, body_size := 4, heading_colour := "#000000",
    body_colour := "#000000", background_colour := "#ffffff",
    font_family := "sans-serif" }

inductive PlaylistEntry where
  | Song (song_id : Nat)
  | Text (text : String)
deriving DecidableEq

structure Playlist where
  name : String
  entries : List PlaylistEntry
deriving DecidableEq

/-- Playlist::new (model.rs line 365). -/
def Playlist.new (name : String) : Playlist := { name, entries := [] }

inductive Slide where
  | SongStart (song_id : Nat)
  | Lyrics (song_id lyric_entry_index lines_index : Nat) (last_page : Bool)
  | Text (text : String)
deriving DecidableEq

structure SlideIndex where
  playlist_id : Nat
  entry_index : Nat
  page_index : Nat
deriving DecidableEq

/--
A BTreeMap with Nat keys is modelled as an association list; the btree
iteration order (ascending keys) corresponds to the list order of the model,
and keys are pairwise distinct.  Operations below only assume the list shape;
key distinctness is taken as a hypothesis where a theorem needs it.
-/
abbrev BMap (α : Type) := List (Nat × α)

/-- BTreeMap::get. -/
def bmGet {α : Type} (m : BMap α) (k : Nat) : Option α :=
  (m.find? (fun p => p.1 == k)).map (fun p => p.2)

/-- BTreeMap::insert: replaces the binding of an existing key, otherwise adds
the binding at its position in ascending key order. -/
def bmInsert {α : Type} (m : BMap α) (k : Nat) (v : α) : BMap α :=
  match m with
  | [] => [(k, v)]
  | p :: rest =>
    if k < p.1 then (k, v) :: p :: rest
    else if k = p.1 then (k, v) :: rest
    else p :: bmInsert rest k v

/-- BTreeMap::remove (the removed value is not needed by the code we model). -/
def bmRemove {α : Type} (m : BMap α) (k : Nat) : BMap α :=
  m.filter (fun p => p.1 != k)

/-- State (model.rs line 20). -/
structure State where
  songs : BMap Song
  playlists : BMap Playlist
  theme : Theme
deriving DecidableEq

/-- State::default (model.rs line 29). -/
def State.default : State :=
  { songs := [], playlists := [(0, Playlist.new "Playlist")], theme := Theme.default }

/-! ## Executable string helpers

The Rust code uses str::split on a single char, str::trim, str::starts_with,
str::ends_with, byte slicing after an ASCII char, char::is_whitespace and
integer formatting.  They are modelled here by structurally recursive
functions on the character list of the string, so that every definition
reduces inside the kernel.  Char.isWhitespace covers the ASCII whitespace
characters; the Unicode-only whitespace of Rust char::is_whitespace is out of
scope of the claims.
-/

/-- Split of a character list at a separator char, matching Rust str::split
on a char: the empty string yields one empty part, and adjacent separators
yield empty parts. -/
def splitOnChar (sep : Char) : List Char → List (List Char)
  | [] => [[]]
  | c :: rest =>
    let r := splitOnChar sep rest
    if c == sep then [] :: r
    else
      match r with
      | [] => [[c]]
      | t :: ts => (c :: t) :: ts

/-- Rust str::split(' ') as a function on String returning the parts as
strings. -/
def splitSpaces (s : String) : List String :=
  (splitOnChar ' ' s.toList).map (fun l => String.mk l)

/-- Rust str::trim on a character list (ASCII whitespace). -/
def trimChars (cs : List Char) : List Char :=
  ((cs.dropWhile Char.isWhitespace).reverse.dropWhile Char.isWhitespace).reverse

/-- Rust str::trim. -/
def trimStr (s : String) : String := String.mk (trimChars s.toList)

/-- The decimal digit character of a value below ten. -/
def digitChar (n : Nat) : Char := Char.ofNat (48 + n)

/-- Decimal digits of a Nat, most significant first, written with explicit
fuel so that it is structurally recursive; the fuel n + 1 always suffices. -/
def natDigitsAux : Nat → Nat → List Char
  | 0, _ => []
  | fuel + 1, n =>
    if n < 10 then [digitChar n]
    else natDigitsAux fuel (n / 10) ++ [digitChar (n % 10)]

/-- Decimal digit string of a Nat: the Display format of Rust unsigned
integers. -/
def natDigits (n : Nat) : List Char := natDigitsAux (n + 1) n

/-- Display of a Rust unsigned integer as a String. -/
def natToString (n : Nat) : String := String.mk (natDigits n)

/-! ## Slide expansion and addressing (model.rs lines 96 to 265) -/

/-- The enumerated first match of a verse-order token among the lyric
entries: song.lyrics.lyrics.iter().enumerate().find on name equality
(model.rs lines 112 to 117 and 203 to 208). -/
def findLyricEntry (entries : List LyricEntry) (verse : String) : Option (Nat × LyricEntry) :=
  entries.enum.find? (fun p => p.2.name == verse)

/--
The visit order of a song shared by State::slide and State::slides_for_song:
each visited occurrence carries the index of the lyric entry, the entry, and
the flag that the source computes for the occurrence
(verse_order_index == verse_order_count - 1 under a verse order, model.rs
lines 110 to 117 and 201 to 208; lyric_entry_index == lyrics.len() - 1
otherwise, model.rs lines 151 and 220).  Tokens without a matching entry are
skipped, as in the source where the find returning None skips the loop body.
-/
def Song.visitList (song : Song) : List (Nat × LyricEntry × Bool) :=
  match song.properties.verse_order with
  | some verse_order =>
    let toks := splitSpaces verse_order
    toks.enum.filterMap (fun p =>
      (findLyricEntry song.lyrics.lyrics p.2).map
        (fun q => (q.1, q.2, p.1 == toks.length - 1)))
  | none =>
    song.lyrics.lyrics.enum.map
      (fun p => (p.1, p.2, p.1 == song.lyrics.lyrics.length - 1))

/--
The per-page walk of the two loops of State::slide (model.rs lines 111 to
149 and 151 to 181): subtract the page count of each visited occurrence from
the remaining offset until it falls inside an occurrence; a Verse occurrence
has one page per element of lines, an Instrument occurrence one page.
-/
def decodePages (song_id : Nat) : List (Nat × LyricEntry × Bool) → Nat → Option Slide
  | [], _ => none
  | (i, LyricEntry.Verse _ _ _ lines, isLast) :: rest, index_left =>
    if index_left < lines.length then
      some (Slide.Lyrics song_id i index_left (isLast && index_left == lines.length - 1))
    else decodePages song_id rest (index_left - lines.length)
  | (i, LyricEntry.Instrument _ _, isLast) :: rest, index_left =>
    if index_left == 0 then some (Slide.Lyrics song_id i 0 isLast)
    else decodePages song_id rest (index_left - 1)

/--
State::slide (model.rs line 96).  The indexing self.songs[song_id] panics
when the id is absent, which the model expresses as Except.error.
-/
def State.slide (s : State) (index : SlideIndex) : Except String (Option Slide) :=
  match bmGet s.playlists index.playlist_id with
  | none => Except.ok none
  | some playlist =>
    match playlist.entries[index.entry_index]? with
    | none => Except.ok none
    | some (PlaylistEntry.Song song_id) =>
      match bmGet s.songs song_id with
      | none => Except.error ("no entry found for key")
      | some song =>
        if index.page_index == 0 then Except.ok (some (Slide.SongStart song_id))
        else Except.ok (decodePages song_id song.visitList (index.page_index - 1))
    | some (PlaylistEntry.Text text) =>
      if index.page_index == 0 then Except.ok (some (Slide.Text text))
      else Except.ok none

/-- push_lyric_entry_pages (model.rs line 330). -/
def push_lyric_entry_pages (slides : List Slide) (lyric_entry_index : Nat)
    (lyric_entry : LyricEntry) (song_id : Nat) (last_entry : Bool) : List Slide :=
  match lyric_entry with
  | .Verse _ _ _ lines =>
    slides ++ (List.range lines.length).map (fun lines_index =>
      Slide.Lyrics song_id lyric_entry_index lines_index
        (last_entry && lines_index == lines.length - 1))
  | .Instrument _ _ =>
    slides ++ [Slide.Lyrics song_id lyric_entry_index 0 last_entry]

/--
State::slides_for_song (model.rs line 196): one SongStart slide, then the
pages of every visited occurrence, in visit order.  The two loops of the
source are the fold of push_lyric_entry_pages over Song.visitList.  The
indexing self.songs[&song_id] panics when the id is absent.
-/
def State.slides_for_song (s : State) (song_id : Nat) : Except String (List Slide) :=
  match bmGet s.songs song_id with
  | none => Except.error ("no entry found for key")
  | some song =>
    Except.ok (song.visitList.foldl
      (fun slides v => push_lyric_entry_pages slides v.1 v.2.1 song_id v.2.2)
      [Slide.SongStart song_id])

/-- The loop body of State::slides (model.rs lines 238 to 263): extend the
accumulated list with the slides of one entry, paired with their indices. -/
def slidesStep (s : State) (playlist_id : Nat) (acc : List (SlideIndex × Slide))
    (p : Nat × PlaylistEntry) : Except String (List (SlideIndex × Slide)) :=
  match p.2 with
  | PlaylistEntry.Song song_id => do
    let ss ← s.slides_for_song song_id
    pure (acc ++ ss.enum.map (fun q =>
      ({ playlist_id, entry_index := p.1, page_index := q.1 }, q.2)))
  | PlaylistEntry.Text text =>
    pure (acc ++ [({ playlist_id, entry_index := p.1, page_index := 0 },
      Slide.Text text)])

/-- State::slides (model.rs line 233). -/
def State.slides (s : State) (playlist_id : Nat) :
    Except String (List (SlideIndex × Slide)) :=
  match bmGet s.playlists playlist_id with
  | none => Except.ok []
  | some playlist =>
    playlist.entries.enum.foldlM (slidesStep s playlist_id) []

/-! ## Catalog operations (model.rs lines 51 to 94 and 268 to 298) -/

/-- State::add_song (model.rs line 51): the returned id together with the
state after the call. -/
def State.add_song (s : State) (song : Song) : Nat × State :=
  match s.songs.find? (fun p => p.2 == song) with
  | some existing => (existing.1, s)
  | none =>
    let id := (s.songs.map (fun p => p.1 + 1)).foldr Nat.max 0
    (id, { s with songs := bmInsert s.songs id song })

/-- State::add_playlist (model.rs line 71). -/
def State.add_playlist (s : State) (playlist : Playlist) : Nat × State :=
  let id := (s.playlists.map (fun p => p.1 + 1)).foldr Nat.max 0
  (id, { s with playlists := bmInsert s.playlists id playlist })

/-- The entry rewrite of State::remove_song (model.rs lines 86 to 90): an
entry referencing the removed id becomes the placeholder text entry. -/
def removeSongEntry (id : Nat) (entry : PlaylistEntry) : PlaylistEntry :=
  match entry with
  | PlaylistEntry.Song song_id =>
    if song_id == id then PlaylistEntry.Text "Song removed" else entry
  | PlaylistEntry.Text _ => entry

/-- State::remove_song (model.rs line 84). -/
def State.remove_song (s : State) (id : Nat) : State :=
  { s with
    playlists := s.playlists.map (fun p =>
      (p.1, { p.2 with entries := p.2.entries.map (removeSongEntry id) })),
    songs := bmRemove s.songs id }

/-- One step of the song import loop of State::merge (model.rs lines 270 to
272): add one song and record its id mapping. -/
def mergeSongsStep (acc : State × BMap Nat) (q : Nat × Song) : State × BMap Nat :=
  let r := acc.1.add_song q.2
  (r.2, bmInsert acc.2 q.1 r.1)

/-- The song import loop of State::merge (model.rs lines 269 to 272): fold
add_song over the songs of the other state, recording the id mapping. -/
def mergeSongs (s : State) (other : State) : State × BMap Nat :=
  other.songs.foldl mergeSongsStep (s, [])

/-- The entry rewrite of State::merge (model.rs lines 277 to 285). -/
def rewriteEntry (m : BMap Nat) : PlaylistEntry → PlaylistEntry
  | PlaylistEntry.Song song_id =>
    match bmGet m song_id with
    | some our_song_id => PlaylistEntry.Song our_song_id
    | none => PlaylistEntry.Text ("Invalid song ID " ++ natToString song_id)
  | PlaylistEntry.Text text => PlaylistEntry.Text text

def rewritePlaylist (m : BMap Nat) (pl : Playlist) : Playlist :=
  { pl with entries := pl.entries.map (rewriteEntry m) }

/-- One step of the playlist import loop of State::merge (model.rs lines
274 to 295): rewrite the playlist through the id mapping and add it unless a
structurally equal playlist already exists. -/
def mergePlaylistStep (m : BMap Nat) (st : State) (q : Nat × Playlist) : State :=
  let pl := rewritePlaylist m q.2
  if st.playlists.any (fun r => r.2 == pl) then st
  else (st.add_playlist pl).2

/-- State::merge (model.rs line 268). -/
def State.merge (s : State) (other : State) : State :=
  let p := mergeSongs s other
  let s2 := other.playlists.foldl (mergePlaylistStep p.2) p.1
  { s2 with theme := other.theme }

/-! ## Playlist reordering (model.rs line 377) -/

/-- The usize range bound. -/
def USIZE : Nat := 2 ^ 64

/-- usize::checked_add_signed. -/
def checkedAddSigned (n : Nat) (offset : Int) : Option Nat :=
  let r : Int := (n : Int) + offset
  if 0 ≤ r ∧ r < (USIZE : Int) then some r.toNat else none

/-- Vec::swap, which panics when either index is out of bounds. -/
def listSwap {α : Type} (l : List α) (i j : Nat) : Except String (List α) :=
  match l[i]?, l[j]? with
  | some vi, some vj => Except.ok ((l.set i vj).set j vi)
  | _, _ => Except.error ("index out of bounds")

/-- Playlist::move_entry_index (model.rs line 377).  The source checks only
new_index against the length before calling Vec::swap, so the swap panics
when entry_index itself is out of bounds while new_index is in bounds. -/
def Playlist.move_entry_index (pl : Playlist) (entry_index : Nat) (offset : Int) :
    Except String (Playlist × Bool) :=
  match checkedAddSigned entry_index offset with
  | some new_index =>
    if new_index < pl.entries.length then
      (listSwap pl.entries entry_index new_index).map
        (fun es => ({ pl with entries := es }, true))
    else Except.ok (pl, false)
  | none => Except.ok (pl, false)

/-! ## Slide content formatter (model/slide.rs, model/helpers.rs) -/

structure SlideLine where
  text : String
  bold : Bool
  italic : Bool
deriving DecidableEq

structure SlideContent where
  title : Option String
  lines : List SlideLine
  credit : Option String
  theme : Theme
deriving DecidableEq

/-- title_for_song (helpers.rs line 12); titles[0] panics when the title
list is empty. -/
def title_for_song (song : Song) : Except String String :=
  match song.properties.titles.titles[0]? with
  | some t => Except.ok t.title
  | none => Except.error ("index out of bounds")

/-- authors_as_string (helpers.rs line 132). -/
def authors_as_string (song : Song) : String :=
  String.intercalate (", ")
    (song.properties.authors.authors.map (fun author =>
      match author.author_type with
      | some author_type => author.name ++ " (" ++ author_type ++ ")"
      | none => author.name))

/-- Rust str::replace(char::is_whitespace, " "). -/
def replaceWhitespace (s : String) : String :=
  String.mk (s.toList.map (fun c => if c.isWhitespace then ' ' else c))

/-- Append text to the last element of a list of strings, modelling
last_mut().push_str on a vector the code has just made nonempty. -/
def appendToLast (t : String) : List String → List String
  | [] => [t]
  | [x] => [x ++ t]
  | x :: xs => x :: appendToLast t xs

mutual

/-- add_simple_content (openlyrics lib.rs line 42). -/
def addSimpleContent (content : VerseContent) (simple_lines : List String) :
    List String :=
  match content with
  | .Text text =>
    let simple_lines := if simple_lines.isEmpty then [""] else simple_lines
    let text := replaceWhitespace text
    let simple_lines := appendToLast (trimStr text) simple_lines
    if text.toList.getLast? == some ' ' then appendToLast " " simple_lines
    else simple_lines
  | .Chord _ _ _ _ _ contents => addSimpleContents contents simple_lines
  | .Br => simple_lines ++ [""]
  | .Comment _ => simple_lines
  | .Tag _ contents => addSimpleContents contents simple_lines

/-- add_simple_contents (openlyrics lib.rs line 36). -/
def addSimpleContents (contents : List VerseContent) (simple_lines : List String) :
    List String :=
  match contents with
  | [] => simple_lines
  | c :: rest => addSimpleContents rest (addSimpleContent c simple_lines)

end

/-- simplify_contents (openlyrics lib.rs line 27). -/
def simplify_contents (contents : List VerseContent) : List String :=
  (addSimpleContents contents []).map (fun line => trimStr line)

/-- The take() semantics of before_first_line in song_page (slide.rs lines
92 to 103): the optional prefix is prepended to the first rendered line
only. -/
def prefixFirst (pre : Option String) : List String → List String
  | [] => []
  | x :: xs => ((pre.getD "") ++ x) :: xs

/-- Rust name.starts_with('v'). -/
def strStartsWithChar (c : Char) (s : String) : Bool :=
  s.toList.head? == some c

/-- Rust &name[1..] for a name whose first char is one-byte. -/
def strDropOne (s : String) : String := String.mk (s.toList.drop 1)

/-- SlideContent::song_page (slide.rs line 59).  Vec indexing panics model
as Except.error, in the evaluation order of the source: the lyric entry
first, then the title, then the line of the verse. -/
def SlideContent.song_page (song : Song) (lyric_entry_index lines_index : Nat)
    (theme : Theme) : Except String SlideContent :=
  match song.lyrics.lyrics[lyric_entry_index]? with
  | none => Except.error ("index out of bounds")
  | some item => do
    let title ← if lyric_entry_index == 0 && lines_index == 0 then do
        let t ← title_for_song song
        pure (some t)
      else pure none
    let credit := if lyric_entry_index == song.lyrics.lyrics.length - 1 &&
        (match item with
         | LyricEntry.Verse _ _ _ lines => lines_index == lines.length - 1
         | LyricEntry.Instrument _ _ => true) then
        some (authors_as_string song)
      else none
    match item with
    | LyricEntry.Verse name _ _ lines =>
      match lines[lines_index]? with
      | none => Except.error ("index out of bounds")
      | some line =>
        let ls : List SlideLine := match line.part with
          | some part => [{ text := "(" ++ part ++ ")", bold := true, italic := false }]
          | none => []
        let before_first_line : Option String :=
          if strStartsWithChar 'v' name && lines_index == 0 then
            some (strDropOne name ++ ". ")
          else none
        let ls := ls ++ (prefixFirst before_first_line (simplify_contents line.contents)).map
          (fun t => ({ text := t, bold := false, italic := false } : SlideLine))
        let ls := match line.repeat_count with
          | some r => ls ++ [{ text := "x " ++ natToString r, bold := true, italic := false }]
          | none => ls
        pure { title, lines := ls, credit, theme }
    | LyricEntry.Instrument name _ =>
      let ls : List SlideLine :=
        [{ text := "(instrumental " ++ name ++ ")", bold := false, italic := false }]
      pure { title, lines := ls, credit, theme }

/-! ## SlideIndex Display and FromStr (model.rs lines 419 to 451) -/

inductive ParseSlideIndexError where
  | WrongNumberOfParts
  | ParseInt
deriving DecidableEq

/-- impl Display for SlideIndex (model.rs line 419): the three components
in decimal, separated by commas. -/
def SlideIndex.display (idx : SlideIndex) : String :=
  natToString idx.playlist_id ++ "," ++ natToString idx.entry_index ++ ","
    ++ natToString idx.page_index

/-- The u32 range bound. -/
def U32 : Nat := 2 ^ 32

/-- FromStr of a Rust unsigned integer with the given range bound: an
optional leading plus sign, then one or more decimal digits, rejecting
values outside the range. -/
def parseUnsigned (bound : Nat) (cs : List Char) : Option Nat :=
  let ds : Option (List Char) :=
    match cs with
    | '+' :: rest => some rest
    | '-' :: _ => none
    | other => some other
  match ds with
  | none => none
  | some ds =>
    if ds.isEmpty then none
    else if ds.all (fun c => c.isDigit) then
      let v := ds.foldl (fun acc c => acc * 10 + (c.toNat - 48)) 0
      if v < bound then some v else none
    else none

/-- impl FromStr for SlideIndex (model.rs line 429). -/
def SlideIndex.fromStr (s : String) : Except ParseSlideIndexError SlideIndex :=
  match splitOnChar ',' s.toList with
  | [a, b, c] =>
    match parseUnsigned U32 a, parseUnsigned USIZE b, parseUnsigned USIZE c with
    | some playlist_id, some entry_index, some page_index =>
      Except.ok { playlist_id, entry_index, page_index }
    | _, _, _ => Except.error ParseSlideIndexError.ParseInt
  | _ => Except.error ParseSlideIndexError.WrongNumberOfParts

/-! ## Derived forms used by the statements and proofs -/

/-- The number of pages a visited occurrence of a lyric entry contributes:
the number of lines of a verse, one for an instrumental entry. -/
def entryPageCount : LyricEntry → Nat
  | .Verse _ _ _ lines => lines.length
  | .Instrument _ _ => 1

/-- The pages emitted for one visited occurrence, as push_lyric_entry_pages
appends them. -/
def entryPages (song_id : Nat) (v : Nat × LyricEntry × Bool) : List Slide :=
  match v with
  | (i, LyricEntry.Verse _ _ _ lines, isLast) =>
    (List.range lines.length).map (fun lines_index =>
      Slide.Lyrics song_id i lines_index (isLast && lines_index == lines.length - 1))
  | (i, LyricEntry.Instrument _ _, isLast) => [Slide.Lyrics song_id i 0 isLast]

/-- The full page list of one song: the SongStart page followed by the pages
of the visited occurrences. -/
def songPageList (song_id : Nat) (song : Song) : List Slide :=
  Slide.SongStart song_id :: song.visitList.flatMap (entryPages song_id)

/-- The indexed slides of one playlist entry, as State::slides emits them. -/
def entrySlides (s : State) (playlist_id : Nat) (p : Nat × PlaylistEntry) :
    List (SlideIndex × Slide) :=
  match p.2 with
  | PlaylistEntry.Song song_id =>
    let pages : List Slide :=
      match bmGet s.songs song_id with
      | some song => songPageList song_id song
      | none => []
    pages.enum.map (fun q => (⟨playlist_id, p.1, q.1⟩, q.2))
  | PlaylistEntry.Text text => [(⟨playlist_id, p.1, 0⟩, Slide.Text text)]

/-- The value State::slides returns when no referenced song is missing. -/
def slidesList (s : State) (playlist_id : Nat) : List (SlideIndex × Slide) :=
  match bmGet s.playlists playlist_id with
  | none => []
  | some playlist => playlist.entries.enum.flatMap (entrySlides s playlist_id)

/-- Check that a playlist entry references an existing song. -/
def entryRefOk (s : State) : PlaylistEntry → Bool
  | PlaylistEntry.Song song_id => (bmGet s.songs song_id).isSome
  | PlaylistEntry.Text _ => true

/-- The documented invariant of State: every live Song entry of every
playlist references an id present in the song catalog. -/
def State.WF (s : State) : Prop :=
  ∀ p ∈ s.playlists, ∀ e ∈ p.2.entries, entryRefOk s e = true

instance (s : State) : Decidable (s.WF) :=
  decidable_of_iff
    (s.playlists.all (fun p => p.2.entries.all (fun e => entryRefOk s e)) = true)
    (by simp [State.WF, List.all_eq_true])

/-- The last_page flag of a slide; false for SongStart and Text slides. -/
def Slide.lastPageFlag : Slide → Bool
  | .Lyrics _ _ _ last_page => last_page
  | _ => false

/-- Whether a slide is a Lyrics slide. -/
def Slide.isLyrics : Slide → Bool
  | .Lyrics _ _ _ _ => true
  | _ => false

/-- The page count of the last visited occurrence of the expansion of a
song: the page count of the last stored entry without a verse order,
otherwise the page count of the entry resolved by the last verse-order
token (zero when the token resolves to nothing). -/
def lastVisitPages (song : Song) : Nat :=
  match song.properties.verse_order with
  | none =>
    match song.lyrics.lyrics.getLast? with
    | some e => entryPageCount e
    | none => 0
  | some verse_order =>
    match (splitSpaces verse_order).getLast? with
    | some t =>
      match findLyricEntry song.lyrics.lyrics t with
      | some p => entryPageCount p.2
      | none => 0
    | none => 0

/-- An out-of-range coordinate: unknown playlist id, entry index past the
playlist, page index past a Text entry, or page index past the expansion of
a Song entry whose song exists. -/
def outOfRange (s : State) (idx : SlideIndex) : Bool :=
  match bmGet s.playlists idx.playlist_id with
  | none => true
  | some playlist =>
    match playlist.entries[idx.entry_index]? with
    | none => true
    | some (PlaylistEntry.Text _) => idx.page_index != 0
    | some (PlaylistEntry.Song song_id) =>
      match bmGet s.songs song_id with
      | some song => decide ((songPageList song_id song).length ≤ idx.page_index)
      | none => false

/-- The largest key of the map, zero when empty. -/
def maxKey {α : Type} (m : BMap α) : Nat := (m.map (fun p => p.1)).foldr Nat.max 0

/-- The storage-order condition that song_page actually uses for the credit
block (slide.rs lines 68 to 72): the slide addresses the last stored lyric
entry, at its last page. -/
def storageLastPage (song : Song) (lyric_entry_index lines_index : Nat) : Bool :=
  (lyric_entry_index == song.lyrics.lyrics.length - 1) &&
    (match song.lyrics.lyrics[lyric_entry_index]? with
     | some (LyricEntry.Verse _ _ _ lines) => lines_index == lines.length - 1
     | some (LyricEntry.Instrument _ _) => true
     | none => false)

/-- A state with no songs and no playlists. -/
def emptyState : State := { songs := [], playlists := [], theme := Theme.default }

/-- Properties with no metadata, matching the Default instance of the Rust
Properties type. -/
def Properties.default : Properties :=
  { titles := ⟨[]⟩, authors := ⟨[]⟩, copyright := none, ccli_no := none,
    released := none, transposition := none, tempo := none, key := none,
    time_signature := none, variant := none, publisher := none, version := none,
    keywords := none, verse_order := none, songbooks := ⟨[]⟩, themes := ⟨[]⟩,
    comments := ⟨[]⟩ }

/-- A Lines value with no content. -/
def emptyLines : Lines :=
  { break_optional := none, part := none, repeat_count := none, contents := [] }

/-- Concrete song for the C1 witness: a two-line verse and an instrumental
entry. -/
def c1Song : Song :=
  { properties := Properties.default,
    lyrics := ⟨[LyricEntry.Verse "v1" none none [emptyLines, emptyLines],
                LyricEntry.Instrument "i1" []]⟩ }

/-- Concrete state for the C1 witness: c1Song referenced by the playlist
with id 42. -/
def c1State : State :=
  { songs := [(0, c1Song)],
    playlists := [(42, { name := "Playlist", entries := [PlaylistEntry.Song 0] })],
    theme := Theme.default }

/-- Concrete song for the C2 witness: a verse order resolving tokens of a
two-line verse and an instrumental entry, with one unmatched token. -/
def c2Song : Song :=
  { properties := { Properties.default with verse_order := some "v1 zz i1 v1" },
    lyrics := ⟨[LyricEntry.Verse "v1" none none [emptyLines, emptyLines],
                LyricEntry.Instrument "i1" []]⟩ }

/-- Concrete state for the C2 witness. -/
def c2State : State :=
  { songs := [(0, c2Song)], playlists := [], theme := Theme.default }

/-- Concrete song for the C3 counterexample: the stored-order last entry is
a verse with zero lines, so the expansion emits a Lyrics slide yet no slide
carries last_page. -/
def c3Song : Song :=
  { properties := Properties.default,
    lyrics := ⟨[LyricEntry.Verse "v1" none none [emptyLines],
                LyricEntry.Verse "v2" none none []]⟩ }

/-- Concrete state for the C3 counterexample. -/
def c3State : State :=
  { songs := [(0, c3Song)], playlists := [], theme := Theme.default }

/-- Concrete song for the C3 witness: the verse order v1 c v2 c revisits the
chorus, whose occurrence under the last token carries the only last_page. -/
def c3WitnessSong : Song :=
  { properties := { Properties.default with verse_order := some "v1 c v2 c" },
    lyrics := ⟨[LyricEntry.Verse "v1" none none [emptyLines],
                LyricEntry.Verse "c" none none [emptyLines],
                LyricEntry.Verse "v2" none none [emptyLines]]⟩ }

/-- Concrete state for the C3 witness. -/
def c3WitnessState : State :=
  { songs := [(0, c3WitnessSong)], playlists := [], theme := Theme.default }

/-- Concrete state for the C4 counterexample: a playlist entry references
song id 7, which is absent from the catalog. -/
def c4State : State :=
  { songs := [],
    playlists := [(0, { name := "p", entries := [PlaylistEntry.Song 7] })],
    theme := Theme.default }

/-- Concrete song for the C4 witness. -/
def c4Song : Song :=
  { properties := Properties.default,
    lyrics := ⟨[LyricEntry.Verse "v1" none none [emptyLines, emptyLines],
                LyricEntry.Instrument "i1" []]⟩ }

/-- Concrete state for the C4 witness. -/
def c4WitnessState : State :=
  { songs := [(0, c4Song)],
    playlists := [(42, { name := "Playlist", entries := [PlaylistEntry.Song 0] })],
    theme := Theme.default }

/-- Concrete playlist for the C5 failing input: one entry. -/
def c5Playlist : Playlist := { name := "p", entries := [PlaylistEntry.Text "a"] }

/-- Concrete song for the C6 witness. -/
def c6Song : Song :=
  { properties := Properties.default,
    lyrics := ⟨[LyricEntry.Verse "v1" none none [emptyLines]]⟩ }

/-- A song structurally different from c6Song. -/
def c6OtherSong : Song :=
  { properties := Properties.default,
    lyrics := ⟨[LyricEntry.Verse "v2" none none [emptyLines]]⟩ }

/-- Concrete state for the C6 witness fresh-insert branch. -/
def c6State : State :=
  { songs := [(3, c6OtherSong)], playlists := [], theme := Theme.default }

/-- Concrete state for the C6 witness dedup branch: already stores a song
structurally equal to c6Song. -/
def c6DupState : State :=
  { songs := [(3, c6Song)], playlists := [], theme := Theme.default }

/-- Concrete state for the C7 witness. -/
def c7State : State :=
  { songs := [(0, { properties := Properties.default,
                    lyrics := ⟨[LyricEntry.Verse "v1" none none [emptyLines]]⟩ })],
    playlists := [(42, { name := "Playlist", entries := [PlaylistEntry.Song 0] })],
    theme := Theme.default }

/-- Concrete song for the C8 witness. -/
def c8Song : Song :=
  { properties := Properties.default,
    lyrics := ⟨[LyricEntry.Verse "a" none none [emptyLines]]⟩ }

/-- Concrete target state for the C8 witness. -/
def c8State : State :=
  { songs := [(3, c8Song)], playlists := [(5, Playlist.new "P")],
    theme := Theme.default }

/-- Concrete imported state for the C8 witness. -/
def c8Other : State :=
  { songs := [(9, c8Song)],
    playlists := [(1, { name := "Q", entries := [PlaylistEntry.Song 9] })],
    theme := { Theme.default with heading_size := 7 } }

/-- Concrete song for the C9 counterexample and witness: the verse order
c v1 makes the first stored entry the last visited occurrence. -/
def c9Song : Song :=
  { properties := { Properties.default with
      titles := ⟨[{ lang := none, translit := none, original := none, title := "T" }]⟩,
      authors := ⟨[{ author_type := some "words", lang := none, name := "A" }]⟩,
      verse_order := some "c v1" },
    lyrics := ⟨[LyricEntry.Verse "v1" none none [emptyLines],
                LyricEntry.Verse "c" none none [emptyLines]]⟩ }

/-- Concrete state for the C9 counterexample and witness. -/
def c9State : State :=
  { songs := [(0, c9Song)], playlists := [], theme := Theme.default }

/-- Concrete song for the C1 witness whose verse order matches no lyric
entry. -/
def c1NoMatchSong : Song :=
  { properties := { Properties.default with verse_order := some "zz qq" },
    lyrics := ⟨[LyricEntry.Verse "v1" none none [emptyLines]]⟩ }

/-- Concrete state holding c1NoMatchSong. -/
def c1NoMatchState : State :=
  { songs := [(0, c1NoMatchSong)], playlists := [], theme := Theme.default }

/-! ## Lemmas about the association-list map -/

theorem bmGet_mem {α : Type} {m : BMap α} {k : Nat} {v : α}
    (h : bmGet m k = some v) : (k, v) ∈ m := by
  unfold bmGet at h
  cases hf : m.find? (fun p => p.1 == k) with
  | none => rw [hf] at h; simp at h
  | some p =>
    rw [hf] at h
    have hm := List.mem_of_find?_eq_some hf
    have hp := List.find?_some hf
    rcases p with ⟨k1, v1⟩
    simp at h hp
    subst hp; subst h
    exact hm

theorem bmGet_eq_none {α : Type} {m : BMap α} {k : Nat}
    (h : ∀ p ∈ m, p.1 ≠ k) : bmGet m k = none := by
  unfold bmGet
  rw [List.find?_eq_none.mpr]
  · rfl
  · intro p hp
    simp [h p hp]

theorem bmGet_cons_self {α : Type} (p : Nat × α) (m : BMap α) :
    bmGet (p :: m) p.1 = some p.2 := by
  simp [bmGet, List.find?]

theorem bmGet_cons_ne {α : Type} (p : Nat × α) (m : BMap α) (k : Nat)
    (h : p.1 ≠ k) : bmGet (p :: m) k = bmGet m k := by
  simp only [bmGet, List.find?]
  have hb : (p.1 == k) = false := by simpa using h
  rw [hb]

theorem bmGet_bmInsert_self {α : Type} (m : BMap α) (k : Nat) (v : α) :
    bmGet (bmInsert m k v) k = some v := by
  induction m with
  | nil => simp [bmInsert, bmGet, List.find?]
  | cons p rest ih =>
    unfold bmInsert
    by_cases h1 : k < p.1
    · rw [if_pos h1]
      exact bmGet_cons_self (k, v) _
    · rw [if_neg h1]
      by_cases h2 : k = p.1
      · rw [if_pos h2]
        exact bmGet_cons_self (k, v) _
      · rw [if_neg h2]
        rw [bmGet_cons_ne p _ k (fun hh => h2 hh.symm)]
        exact ih

theorem bmGet_bmInsert_ne {α : Type} (m : BMap α) (k k' : Nat) (v : α)
    (h : k' ≠ k) : bmGet (bmInsert m k v) k' = bmGet m k' := by
  induction m with
  | nil =>
    simp only [bmInsert]
    exact bmGet_cons_ne (k, v) [] k' (fun hh => h hh.symm)
  | cons p rest ih =>
    unfold bmInsert
    by_cases h1 : k < p.1
    · rw [if_pos h1]
      exact bmGet_cons_ne (k, v) _ k' (fun hh => h hh.symm)
    · rw [if_neg h1]
      by_cases h2 : k = p.1
      · rw [if_pos h2]
        rw [bmGet_cons_ne (k, v) _ k' (fun hh => h hh.symm)]
        subst h2
        rw [bmGet_cons_ne p _ k' (fun hh => h hh.symm)]
      · rw [if_neg h2]
        by_cases h3 : p.1 = k'
        · rw [show (p :: bmInsert rest k v) = ((p.1, p.2) :: bmInsert rest k v) by simp,
            show (p :: rest) = ((p.1, p.2) :: rest) by simp, h3]
          rw [bmGet_cons_self (k', p.2), bmGet_cons_self (k', p.2)]
        · rw [bmGet_cons_ne p _ k' h3, bmGet_cons_ne p _ k' h3]
          exact ih

theorem mem_bmInsert {α : Type} {m : BMap α} {k : Nat} {v : α} {p : Nat × α}
    (h : p ∈ bmInsert m k v) : p = (k, v) ∨ p ∈ m := by
  induction m with
  | nil =>
    simp [bmInsert] at h
    exact Or.inl h
  | cons q rest ih =>
    unfold bmInsert at h
    by_cases h1 : k < q.1
    · rw [if_pos h1] at h
      rcases List.mem_cons.mp h with h | h
      · exact Or.inl h
      · exact Or.inr h
    · rw [if_neg h1] at h
      by_cases h2 : k = q.1
      · rw [if_pos h2] at h
        rcases List.mem_cons.mp h with h | h
        · exact Or.inl h
        · exact Or.inr (List.mem_cons_of_mem _ h)
      · rw [if_neg h2] at h
        rcases List.mem_cons.mp h with h | h
        · exact Or.inr (by simp [h])
        · rcases ih h with h | h
          · exact Or.inl h
          · exact Or.inr (List.mem_cons_of_mem _ h)

theorem bmGet_bmRemove_self {α : Type} (m : BMap α) (k : Nat) :
    bmGet (bmRemove m k) k = none := by
  apply bmGet_eq_none
  intro p hp
  unfold bmRemove at hp
  have := List.of_mem_filter hp
  simpa using this

theorem bmGet_bmRemove_ne {α : Type} (m : BMap α) (k k' : Nat) (h : k' ≠ k) :
    bmGet (bmRemove m k) k' = bmGet m k' := by
  induction m with
  | nil => simp [bmRemove]
  | cons p rest ih =>
    unfold bmRemove
    simp only [List.filter]
    cases hpk : (p.1 != k) with
    | false =>
      have hp1 : p.1 = k := by simpa using hpk
      rw [bmGet_cons_ne p rest k' (by omega)]
      exact ih
    | true =>
      by_cases h3 : p.1 = k'
      · rw [show (p :: List.filter (fun p => p.1 != k) rest) =
            ((p.1, p.2) :: List.filter (fun p => p.1 != k) rest) by simp,
          show (p :: rest) = ((p.1, p.2) :: rest) by simp, h3]
        rw [bmGet_cons_self (k', p.2), bmGet_cons_self (k', p.2)]
      · rw [bmGet_cons_ne p _ k' h3, bmGet_cons_ne p _ k' h3]
        exact ih

/-! ## Lemmas about id allocation -/

theorem nat_max_add_one (a b : Nat) : Nat.max (a + 1) (b + 1) = Nat.max a b + 1 := by
  simp only [Nat.max_def]
  split <;> split <;> omega

theorem foldr_max_ge (l : List Nat) : ∀ x ∈ l, x ≤ l.foldr Nat.max 0 := by
  induction l with
  | nil => intro x hx; simp at hx
  | cons a l ih =>
    intro x hx
    rcases List.mem_cons.mp hx with h | h
    · subst h
      exact Nat.le_max_left _ _
    · exact le_trans (ih x h) (Nat.le_max_right _ _)

theorem freshId_gt {α : Type} (m : BMap α) :
    ∀ p ∈ m, p.1 < (m.map (fun p => p.1 + 1)).foldr Nat.max 0 := by
  intro p hp
  have : p.1 + 1 ∈ m.map (fun p => p.1 + 1) := List.mem_map_of_mem _ hp
  have := foldr_max_ge _ _ this
  omega

theorem bmGet_freshId {α : Type} (m : BMap α) :
    bmGet m ((m.map (fun p => p.1 + 1)).foldr Nat.max 0) = none := by
  apply bmGet_eq_none
  intro p hp
  have := freshId_gt m p hp
  omega

theorem freshId_eq_maxKey_succ {α : Type} (m : BMap α) (h : m ≠ []) :
    (m.map (fun p => p.1 + 1)).foldr Nat.max 0 = maxKey m + 1 := by
  induction m with
  | nil => exact absurd rfl h
  | cons p rest ih =>
    cases rest with
    | nil => simp [maxKey]
    | cons q rest2 =>
      have hne : q :: rest2 ≠ [] := by simp
      have h2 := ih hne
      simp only [List.map, List.foldr, maxKey] at h2 ⊢
      rw [h2, nat_max_add_one]

/-! ## Lemmas about slide expansion -/

theorem push_lyric_entry_pages_eq (slides : List Slide) (i : Nat) (e : LyricEntry)
    (song_id : Nat) (last_entry : Bool) :
    push_lyric_entry_pages slides i e song_id last_entry
      = slides ++ entryPages song_id (i, e, last_entry) := by
  cases e <;> rfl

theorem foldl_push_eq (song_id : Nat) (visits : List (Nat × LyricEntry × Bool))
    (init : List Slide) :
    visits.foldl (fun slides v => push_lyric_entry_pages slides v.1 v.2.1 song_id v.2.2)
        init
      = init ++ visits.flatMap (entryPages song_id) := by
  induction visits generalizing init with
  | nil => simp
  | cons v rest ih =>
    simp only [List.foldl, List.flatMap_cons]
    rw [ih, push_lyric_entry_pages_eq]
    rcases v with ⟨i, e, b⟩
    simp [List.append_assoc]

theorem slides_for_song_eq (s : State) (song_id : Nat) (song : Song)
    (h : bmGet s.songs song_id = some song) :
    s.slides_for_song song_id = Except.ok (songPageList song_id song) := by
  simp only [State.slides_for_song, h]
  rw [foldl_push_eq]
  rfl

theorem entryPages_length (song_id : Nat) (v : Nat × LyricEntry × Bool) :
    (entryPages song_id v).length = entryPageCount v.2.1 := by
  rcases v with ⟨i, e, b⟩
  cases e <;> simp [entryPages, entryPageCount]

theorem decodePages_eq_getElem? (song_id : Nat) (visits : List (Nat × LyricEntry × Bool))
    (n : Nat) :
    decodePages song_id visits n = (visits.flatMap (entryPages song_id))[n]? := by
  induction visits generalizing n with
  | nil => simp [decodePages]
  | cons v rest ih =>
    rcases v with ⟨i, e, b⟩
    cases e with
    | Verse nm lg tr lines =>
      simp only [decodePages, List.flatMap_cons]
      by_cases hn : n < lines.length
      · rw [if_pos hn]
        rw [List.getElem?_append_left (by simpa [entryPages] using hn)]
        simp only [entryPages]
        rw [List.getElem?_map, List.getElem?_range hn]
        rfl
      · rw [if_neg hn]
        rw [List.getElem?_append_right (by simp [entryPages]; omega)]
        rw [ih]
        congr 1
        simp [entryPages]
    | Instrument nm lines =>
      simp only [decodePages, List.flatMap_cons]
      by_cases hn : n = 0
      · subst hn
        simp [entryPages]
      · rw [if_neg (by simpa using hn)]
        rw [List.getElem?_append_right (by simp [entryPages]; omega)]
        rw [ih]
        simp [entryPages]

theorem slide_song_eq (s : State) (idx : SlideIndex) (playlist : Playlist)
    (song_id : Nat) (song : Song)
    (hpl : bmGet s.playlists idx.playlist_id = some playlist)
    (he : playlist.entries[idx.entry_index]? = some (PlaylistEntry.Song song_id))
    (hs : bmGet s.songs song_id = some song) :
    s.slide idx = Except.ok ((songPageList song_id song)[idx.page_index]?) := by
  simp only [State.slide, hpl, he, hs]
  by_cases hp : idx.page_index = 0
  · rw [if_pos (by simpa using hp), hp]
    simp [songPageList]
  · rw [if_neg (by simpa using hp)]
    rw [decodePages_eq_getElem?]
    rcases hn : idx.page_index with _ | n
    · exact absurd hn hp
    · simp [songPageList]

/-! ## Lemmas about slide addressing -/

theorem mem_enum_iff {α : Type} (l : List α) (i : Nat) (x : α) :
    (i, x) ∈ l.enum ↔ l[i]? = some x := by
  constructor
  · intro h
    rcases List.mem_iff_getElem?.mp h with ⟨n, hn⟩
    rw [List.getElem?_enum] at hn
    cases hx : l[n]? with
    | none => rw [hx] at hn; cases hn
    | some y =>
      rw [hx] at hn
      simp only [Option.map_some', Option.some.injEq, Prod.mk.injEq] at hn
      rcases hn with ⟨h1, h2⟩
      subst h1; subst h2
      exact hx
  · intro h
    apply List.getElem?_mem (show l.enum[i]? = some (i, x) by
      rw [List.getElem?_enum, h]; rfl)

theorem slidesStep_ok (s : State) (playlist_id : Nat)
    (acc : List (SlideIndex × Slide)) (p : Nat × PlaylistEntry)
    (hok : entryRefOk s p.2 = true) :
    slidesStep s playlist_id acc p = Except.ok (acc ++ entrySlides s playlist_id p) := by
  rcases p with ⟨i, e⟩
  cases e with
  | Song song_id =>
    unfold entryRefOk at hok
    rcases Option.isSome_iff_exists.mp hok with ⟨song, hsong⟩
    simp only [slidesStep, entrySlides, slides_for_song_eq s song_id song hsong, hsong]
    rfl
  | Text t => rfl

theorem foldlM_slidesStep (s : State) (playlist_id : Nat)
    (L : List (Nat × PlaylistEntry)) (acc : List (SlideIndex × Slide))
    (hok : ∀ p ∈ L, entryRefOk s p.2 = true) :
    L.foldlM (slidesStep s playlist_id) acc
      = Except.ok (acc ++ L.flatMap (entrySlides s playlist_id)) := by
  induction L generalizing acc with
  | nil => rw [List.flatMap_nil, List.append_nil]; rfl
  | cons p rest ih =>
    have hp := hok p (by simp)
    simp only [List.foldlM, slidesStep_ok s playlist_id acc p hp]
    show (Except.ok (acc ++ entrySlides s playlist_id p) >>= fun acc =>
      rest.foldlM (slidesStep s playlist_id) acc) = _
    rw [show ∀ (a : List (SlideIndex × Slide))
        (f : List (SlideIndex × Slide) → Except String (List (SlideIndex × Slide))),
        (Except.ok a >>= f) = f a from fun a f => rfl]
    rw [ih _ (fun q hq => hok q (List.mem_cons_of_mem _ hq))]
    simp [List.append_assoc]

theorem slides_eq_of_ok (s : State) (playlist_id : Nat) (playlist : Playlist)
    (hpl : bmGet s.playlists playlist_id = some playlist)
    (hok : ∀ e ∈ playlist.entries, entryRefOk s e = true) :
    s.slides playlist_id = Except.ok (slidesList s playlist_id) := by
  simp only [State.slides, slidesList, hpl]
  rw [foldlM_slidesStep]
  · rfl
  · intro p hp
    apply hok
    have : p.2 ∈ playlist.entries.enum.map Prod.snd := List.mem_map_of_mem _ hp
    rwa [List.enum_map_snd] at this

theorem slides_none (s : State) (playlist_id : Nat)
    (hpl : bmGet s.playlists playlist_id = none) :
    s.slides playlist_id = Except.ok [] := by
  simp only [State.slides, hpl]

theorem WF_entries_ok {s : State} {playlist_id : Nat} {playlist : Playlist}
    (hwf : s.WF) (hpl : bmGet s.playlists playlist_id = some playlist) :
    ∀ e ∈ playlist.entries, entryRefOk s e = true := by
  intro e he
  exact hwf (playlist_id, playlist) (bmGet_mem hpl) e he

theorem slides_ok_of_WF (s : State) (playlist_id : Nat) (hwf : s.WF) :
    s.slides playlist_id = Except.ok (slidesList s playlist_id) := by
  cases hpl : bmGet s.playlists playlist_id with
  | none => rw [slides_none s playlist_id hpl]; simp [slidesList, hpl]
  | some playlist => exact slides_eq_of_ok s playlist_id playlist hpl (WF_entries_ok hwf hpl)

theorem mem_entrySlides_song_iff (s : State) (playlist_id i song_id : Nat) (song : Song)
    (hsong : bmGet s.songs song_id = some song) (idx : SlideIndex) (sl : Slide) :
    (idx, sl) ∈ entrySlides s playlist_id (i, PlaylistEntry.Song song_id) ↔
      (idx.playlist_id = playlist_id ∧ idx.entry_index = i ∧
        (songPageList song_id song)[idx.page_index]? = some sl) := by
  simp only [entrySlides, hsong]
  constructor
  · intro h
    rcases List.mem_map.mp h with ⟨⟨k, x⟩, hmem, heq⟩
    have hk := (mem_enum_iff _ _ _).mp hmem
    simp only [Prod.mk.injEq] at heq
    rcases heq with ⟨h1, h2⟩
    subst h2
    rw [← h1]
    exact ⟨rfl, rfl, hk⟩
  · intro ⟨h1, h2, h3⟩
    apply List.mem_map.mpr
    refine ⟨(idx.page_index, sl), (mem_enum_iff _ _ _).mpr h3, ?_⟩
    rcases idx with ⟨a, b, c⟩
    simp only at h1 h2
    simp [h1, h2]

theorem mem_entrySlides_text_iff (s : State) (playlist_id i : Nat) (t : String)
    (idx : SlideIndex) (sl : Slide) :
    (idx, sl) ∈ entrySlides s playlist_id (i, PlaylistEntry.Text t) ↔
      (idx = ⟨playlist_id, i, 0⟩ ∧ sl = Slide.Text t) := by
  simp only [entrySlides, List.mem_singleton, Prod.mk.injEq]

theorem slide_text_eq (s : State) (idx : SlideIndex) (playlist : Playlist) (t : String)
    (hpl : bmGet s.playlists idx.playlist_id = some playlist)
    (he : playlist.entries[idx.entry_index]? = some (PlaylistEntry.Text t)) :
    s.slide idx
      = Except.ok (if idx.page_index = 0 then some (Slide.Text t) else none) := by
  simp only [State.slide, hpl, he]
  by_cases hp : idx.page_index = 0
  · rw [if_pos (by simpa using hp), if_pos hp]
  · rw [if_neg (by simpa using hp), if_neg hp]

theorem mem_slidesList_iff (s : State) (idx : SlideIndex) (sl : Slide) (hwf : s.WF) :
    (idx, sl) ∈ slidesList s idx.playlist_id ↔ s.slide idx = Except.ok (some sl) := by
  cases hpl : bmGet s.playlists idx.playlist_id with
  | none =>
    simp only [slidesList, hpl]
    constructor
    · intro h; exact absurd h (List.not_mem_nil _)
    · intro h
      simp only [State.slide, hpl] at h
      exact Option.noConfusion (Except.ok.inj h)
  | some playlist =>
    simp only [slidesList, hpl]
    rw [List.mem_flatMap]
    constructor
    · intro ⟨⟨i, e⟩, hmem, hin⟩
      have he : playlist.entries[i]? = some e := (mem_enum_iff _ _ _).mp hmem
      cases e with
      | Song song_id =>
        have hok := WF_entries_ok hwf hpl (PlaylistEntry.Song song_id)
          (List.getElem?_mem he)
        unfold entryRefOk at hok
        rcases Option.isSome_iff_exists.mp hok with ⟨song, hsong⟩
        rcases (mem_entrySlides_song_iff s idx.playlist_id i song_id song hsong
          idx sl).mp hin with ⟨_, h2, h3⟩
        rw [slide_song_eq s idx playlist song_id song hpl (by rw [h2]; exact he) hsong, h3]
      | Text t =>
        rcases (mem_entrySlides_text_iff s idx.playlist_id i t idx sl).mp hin
          with ⟨h1, h2⟩
        subst h2
        rw [slide_text_eq s idx playlist t hpl (by rw [show idx.entry_index = i by rw [h1]]; exact he)]
        rw [show idx.page_index = 0 by rw [h1]]
        rfl
    · intro h
      cases he : playlist.entries[idx.entry_index]? with
      | none =>
        simp only [State.slide, hpl, he] at h
        exact absurd (Except.ok.inj h) (by simp)
      | some e =>
        cases e with
        | Song song_id =>
          have hok := WF_entries_ok hwf hpl (PlaylistEntry.Song song_id)
            (List.getElem?_mem he)
          unfold entryRefOk at hok
          rcases Option.isSome_iff_exists.mp hok with ⟨song, hsong⟩
          rw [slide_song_eq s idx playlist song_id song hpl he hsong] at h
          refine ⟨(idx.entry_index, PlaylistEntry.Song song_id),
            (mem_enum_iff _ _ _).mpr he, ?_⟩
          exact (mem_entrySlides_song_iff s idx.playlist_id idx.entry_index song_id
            song hsong idx sl).mpr ⟨rfl, rfl, Except.ok.inj h⟩
        | Text t =>
          rw [slide_text_eq s idx playlist t hpl he] at h
          have hh := Except.ok.inj h
          by_cases hp : idx.page_index = 0
          · rw [if_pos hp] at hh
            have hsl : sl = Slide.Text t := by
              cases hh; rfl
            refine ⟨(idx.entry_index, PlaylistEntry.Text t),
              (mem_enum_iff _ _ _).mpr he, ?_⟩
            apply (mem_entrySlides_text_iff s idx.playlist_id idx.entry_index t
              idx sl).mpr
            refine ⟨?_, hsl⟩
            rcases idx with ⟨a, b, c⟩
            simp only at hp ⊢
            rw [hp]
          · rw [if_neg hp] at hh
            exact Option.noConfusion hh

/--
C1: for every state satisfying the documented reference invariant and every
coordinate idx, the direct decode State::slide and the full enumeration
State::slides agree: slide idx returns some slide s exactly when the pair
(idx, s) appears in slides idx.playlist_id.  In particular a verse-order
expansion in which no token matches contributes an empty visit list on both
sides, leaving only the SongStart page.
-/
theorem c1_slide_slides_agree (s : State) (hwf : s.WF) (idx : SlideIndex) (sl : Slide) :
    (s.slide idx = Except.ok (some sl) ↔
      ∃ l, s.slides idx.playlist_id = Except.ok l ∧ (idx, sl) ∈ l) ∧
    (∀ (song_id : Nat) (song : Song) (verse_order : String),
      bmGet s.songs song_id = some song →
      song.properties.verse_order = some verse_order →
      (∀ t ∈ splitSpaces verse_order, findLyricEntry song.lyrics.lyrics t = none) →
      s.slides_for_song song_id = Except.ok [Slide.SongStart song_id]) := by
  constructor
  · rw [slides_ok_of_WF s idx.playlist_id hwf]
    constructor
    · intro h
      exact ⟨slidesList s idx.playlist_id, rfl, (mem_slidesList_iff s idx sl hwf).mpr h⟩
    · intro ⟨l, hl, hm⟩
      have := Except.ok.inj hl
      subst this
      exact (mem_slidesList_iff s idx sl hwf).mp hm
  · intro song_id song verse_order hs hvo hnone
    rw [slides_for_song_eq s song_id song hs]
    have hempty : song.visitList = [] := by
      simp only [Song.visitList, hvo]
      apply List.filterMap_eq_nil_iff.mpr
      intro p hp
      have hp2 : p.2 ∈ splitSpaces verse_order := by
        have : p.2 ∈ (splitSpaces verse_order).enum.map Prod.snd :=
          List.mem_map_of_mem _ hp
        rwa [List.enum_map_snd] at this
      rw [hnone p.2 hp2]
      rfl
    unfold songPageList
    rw [hempty]
    rfl

/-- Witness for C1 at a concrete state and coordinate, together with a
concrete song whose verse order matches no entry. -/
theorem c1_slide_slides_agree_witness :
    c1State.WF ∧
      (c1State.slide ⟨42, 0, 1⟩ = Except.ok (some (Slide.Lyrics 0 0 0 false)) ↔
        ∃ l, c1State.slides 42 = Except.ok l ∧
          ((⟨42, 0, 1⟩ : SlideIndex), Slide.Lyrics 0 0 0 false) ∈ l) ∧
      c1NoMatchState.slides_for_song 0 = Except.ok [Slide.SongStart 0] :=
  ⟨by decide,
   (c1_slide_slides_agree c1State (by decide) ⟨42, 0, 1⟩ (Slide.Lyrics 0 0 0 false)).1,
   (c1_slide_slides_agree c1NoMatchState (by decide) ⟨0, 0, 0⟩
       (Slide.SongStart 0)).2 0 c1NoMatchSong "zz qq" (by decide) (by decide)
     (by decide)⟩

/-! ## Expansion count (C2) -/

theorem songPageList_length (song_id : Nat) (song : Song) :
    (songPageList song_id song).length
      = 1 + (song.visitList.map (fun v => entryPageCount v.2.1)).sum := by
  simp only [songPageList, List.length_cons, List.length_flatMap]
  rw [show (List.map (List.length ∘ entryPages song_id) song.visitList)
      = song.visitList.map (fun v => entryPageCount v.2.1) from
    List.map_congr_left (fun v _ => entryPages_length song_id v)]
  omega

theorem visitList_none_pageCounts (song : Song)
    (h : song.properties.verse_order = none) :
    song.visitList.map (fun v => entryPageCount v.2.1)
      = song.lyrics.lyrics.map entryPageCount := by
  unfold Song.visitList
  rw [h, List.map_map]
  rw [show ((fun (v : Nat × LyricEntry × Bool) => entryPageCount v.2.1) ∘
      (fun p : Nat × LyricEntry =>
        (p.1, p.2, p.1 == song.lyrics.lyrics.length - 1)))
      = (entryPageCount ∘ Prod.snd) from rfl]
  rw [← List.map_map, List.enum_map_snd]

theorem filterMap_enumFrom_pageCounts (lyrics : List LyricEntry) (l : List String)
    (n : Nat) (b : Nat → Bool) :
    (((l.enumFrom n).filterMap (fun p =>
        (findLyricEntry lyrics p.2).map (fun q => (q.1, q.2, b p.1)))).map
      (fun v => entryPageCount v.2.1))
      = ((l.filterMap (fun t => findLyricEntry lyrics t)).map
          (fun q => entryPageCount q.2)) := by
  induction l generalizing n with
  | nil => rfl
  | cons t rest ih =>
    simp only [List.enumFrom, List.filterMap_cons]
    cases hf : findLyricEntry lyrics t with
    | none => exact ih (n + 1)
    | some q =>
      simp only [Option.map_some', List.map_cons]
      rw [ih (n + 1)]

/--
C2: for a catalogued song without a verse order, slides_for_song emits
exactly 1 + (sum of the line counts of its verse entries) + (its number of
instrument entries) slides, the two tallies combined here as the sum of
entryPageCount over the stored entries; with a verse order it emits exactly
1 + the sum of the page counts of the entries resolved by the resolvable
tokens, in token order.
-/
theorem c2_expansion_count (s : State) (song_id : Nat) (song : Song)
    (h : bmGet s.songs song_id = some song) :
    ∃ l, s.slides_for_song song_id = Except.ok l ∧
      l.length = 1 + (match song.properties.verse_order with
        | none => (song.lyrics.lyrics.map entryPageCount).sum
        | some verse_order =>
          (((splitSpaces verse_order).filterMap
              (fun t => findLyricEntry song.lyrics.lyrics t)).map
            (fun q => entryPageCount q.2)).sum) := by
  refine ⟨songPageList song_id song, slides_for_song_eq s song_id song h, ?_⟩
  rw [songPageList_length]
  cases hvo : song.properties.verse_order with
  | none => rw [visitList_none_pageCounts song hvo]
  | some verse_order =>
    have hfm := filterMap_enumFrom_pageCounts song.lyrics.lyrics
      (splitSpaces verse_order) 0
      (fun k => k == (splitSpaces verse_order).length - 1)
    simp only [Song.visitList, hvo]
    rw [show (splitSpaces verse_order).enum
        = (splitSpaces verse_order).enumFrom 0 from rfl]
    rw [hfm]

/-- Witness for C2 at a concrete state: both with and without a verse order. -/
theorem c2_expansion_count_witness :
    bmGet c2State.songs 0 = some c2Song ∧
      (∃ l, c2State.slides_for_song 0 = Except.ok l ∧
        l.length = 1 + (match c2Song.properties.verse_order with
          | none => (c2Song.lyrics.lyrics.map entryPageCount).sum
          | some verse_order =>
            (((splitSpaces verse_order).filterMap
                (fun t => findLyricEntry c2Song.lyrics.lyrics t)).map
              (fun q => entryPageCount q.2)).sum)) :=
  ⟨by decide, c2_expansion_count c2State 0 c2Song (by decide)⟩

/-! ## Last-page uniqueness (C3) -/

theorem entryPages_false_flags (song_id : Nat) (i : Nat) (e : LyricEntry) :
    ∀ sl ∈ entryPages song_id (i, e, false), sl.lastPageFlag = false := by
  intro sl hsl
  cases e with
  | Verse nm lg tr lines =>
    rcases List.mem_map.mp hsl with ⟨k, _, hk⟩
    rw [← hk]
    simp [Slide.lastPageFlag]
  | Instrument nm lines =>
    simp only [entryPages, List.mem_singleton] at hsl
    rw [hsl]
    rfl

theorem flatMap_false_flags (song_id : Nat) (vs : List (Nat × LyricEntry × Bool))
    (hvs : ∀ w ∈ vs, w.2.2 = false) :
    ∀ sl ∈ vs.flatMap (entryPages song_id), sl.lastPageFlag = false := by
  intro sl hsl
  rcases List.mem_flatMap.mp hsl with ⟨w, hw, hin⟩
  rcases w with ⟨i, e, b⟩
  have hb := hvs _ hw
  simp only at hb
  subst hb
  exact entryPages_false_flags song_id i e sl hin

theorem entryPages_true_last (song_id : Nat) (i : Nat) (e : LyricEntry)
    (hc : 1 ≤ entryPageCount e) :
    ((entryPages song_id (i, e, true)).filter Slide.lastPageFlag).length = 1 ∧
      ∃ sl, (entryPages song_id (i, e, true)).getLast? = some sl ∧
        sl.lastPageFlag = true := by
  cases e with
  | Verse nm lg tr lines =>
    simp only [entryPageCount] at hc
    obtain ⟨m, hm⟩ : ∃ m, lines.length = m + 1 := ⟨lines.length - 1, by omega⟩
    simp only [entryPages, hm]
    rw [List.range_succ]
    rw [List.map_append, List.filter_append]
    have h1 : (List.filter Slide.lastPageFlag ((List.range m).map (fun k =>
        Slide.Lyrics song_id i k (true && (k == m + 1 - 1))))) = [] := by
      apply List.filter_eq_nil_iff.mpr
      intro sl hsl
      rcases List.mem_map.mp hsl with ⟨k, hk, hke⟩
      have hkm : k < m := List.mem_range.mp hk
      rw [← hke]
      simp [Slide.lastPageFlag]
      omega
    rw [h1]
    constructor
    · simp [Slide.lastPageFlag]
    · refine ⟨Slide.Lyrics song_id i m (true && (m == m + 1 - 1)), ?_, ?_⟩
      · rw [List.getLast?_append_of_ne_nil _ (by simp)]
        simp
      · simp [Slide.lastPageFlag]
  | Instrument nm lines =>
    refine ⟨rfl, Slide.Lyrics song_id i 0 true, rfl, rfl⟩

theorem pageList_lastpage (song_id : Nat) (vs : List (Nat × LyricEntry × Bool))
    (i : Nat) (e : LyricEntry)
    (hvs : ∀ w ∈ vs, w.2.2 = false) (hc : 1 ≤ entryPageCount e) :
    ∃ sl, (Slide.SongStart song_id
        :: (vs ++ [(i, e, true)]).flatMap (entryPages song_id)).getLast?
          = some sl ∧
      sl.lastPageFlag = true ∧
      ((Slide.SongStart song_id
          :: (vs ++ [(i, e, true)]).flatMap (entryPages song_id)).filter
        Slide.lastPageFlag).length = 1 := by
  obtain ⟨hcount, sl, hlast, hflag⟩ := entryPages_true_last song_id i e hc
  have hne : entryPages song_id (i, e, true) ≠ [] := by
    intro hnil
    rw [hnil] at hlast
    simp at hlast
  refine ⟨sl, ?_, hflag, ?_⟩
  · rw [List.flatMap_append]
    rw [show (Slide.SongStart song_id :: (vs.flatMap (entryPages song_id)
        ++ [(i, e, true)].flatMap (entryPages song_id)))
      = ((Slide.SongStart song_id :: vs.flatMap (entryPages song_id))
        ++ [(i, e, true)].flatMap (entryPages song_id)) from rfl]
    rw [List.getLast?_append_of_ne_nil _ (by simpa using hne)]
    simpa using hlast
  · rw [List.flatMap_append]
    rw [List.filter_cons]
    rw [show (Slide.lastPageFlag (Slide.SongStart song_id)) = false from rfl]
    simp only [Bool.false_eq_true, if_false]
    rw [List.filter_append]
    rw [List.filter_eq_nil_iff.mpr (by
      intro sl2 hsl2
      simp [flatMap_false_flags song_id vs hvs sl2 hsl2])]
    simpa using hcount

theorem map_enum_last_flag {α : Type} (init : List α) (e : α) :
    ((init ++ [e]).enum.map (fun p => (p.1, p.2, p.1 == (init ++ [e]).length - 1)))
      = (init.enum.map (fun p => (p.1, p.2, p.1 == (init ++ [e]).length - 1)))
        ++ [(init.length, e, true)]
      ∧ ∀ w ∈ init.enum.map (fun p =>
          (p.1, p.2, p.1 == (init ++ [e]).length - 1)), w.2.2 = false := by
  constructor
  · rw [show (init ++ [e]).enum = List.enumFrom 0 (init ++ [e]) from rfl]
    rw [List.enumFrom_append]
    rw [List.map_append]
    congr 1
    simp [List.enumFrom, List.length_append]
  · intro w hw
    rcases List.mem_map.mp hw with ⟨⟨k, x⟩, hk, hke⟩
    have hlt : k < init.length :=
      (List.getElem?_eq_some.mp ((mem_enum_iff init k x).mp hk)).1
    rw [← hke]
    simp [List.length_append]
    omega

theorem visitList_none_decomp (song : Song)
    (h : song.properties.verse_order = none)
    (e : LyricEntry) (hl : song.lyrics.lyrics.getLast? = some e) :
    ∃ vs i, song.visitList = vs ++ [(i, e, true)] ∧ ∀ w ∈ vs, w.2.2 = false := by
  have hne : song.lyrics.lyrics ≠ [] := by
    intro hnil; rw [hnil] at hl; simp at hl
  have h2 := List.getLast?_eq_getLast song.lyrics.lyrics hne
  rw [hl] at h2
  have h3 : song.lyrics.lyrics.getLast hne = e := (Option.some.inj h2).symm
  have hsplit : song.lyrics.lyrics.dropLast ++ [e] = song.lyrics.lyrics := by
    rw [← h3]
    exact List.dropLast_append_getLast hne
  simp only [Song.visitList, h]
  rw [← hsplit]
  obtain ⟨h1, h2'⟩ := map_enum_last_flag song.lyrics.lyrics.dropLast e
  exact ⟨_, _, h1, h2'⟩

theorem filterMap_enum_last_flag (lyrics : List LyricEntry) (tinit : List String)
    (t : String) (i : Nat) (e : LyricEntry)
    (hf : findLyricEntry lyrics t = some (i, e)) :
    ((tinit ++ [t]).enum.filterMap (fun p => (findLyricEntry lyrics p.2).map
        (fun q => (q.1, q.2, p.1 == (tinit ++ [t]).length - 1))))
      = (tinit.enum.filterMap (fun p => (findLyricEntry lyrics p.2).map
          (fun q => (q.1, q.2, p.1 == (tinit ++ [t]).length - 1)))) ++ [(i, e, true)]
      ∧ ∀ w ∈ tinit.enum.filterMap (fun p => (findLyricEntry lyrics p.2).map
          (fun q => (q.1, q.2, p.1 == (tinit ++ [t]).length - 1))), w.2.2 = false := by
  constructor
  · rw [show (tinit ++ [t]).enum = List.enumFrom 0 (tinit ++ [t]) from rfl]
    rw [List.enumFrom_append]
    rw [List.filterMap_append]
    congr 1
    simp [List.enumFrom, List.length_append, hf]
  · intro w hw
    rcases List.mem_filterMap.mp hw with ⟨⟨k, x⟩, hk, hke⟩
    have hlt : k < tinit.length :=
      (List.getElem?_eq_some.mp ((mem_enum_iff tinit k x).mp hk)).1
    cases hx : findLyricEntry lyrics x with
    | none => rw [hx] at hke; cases hke
    | some q =>
      rw [hx] at hke
      have := Option.some.inj hke
      rw [← this]
      simp [List.length_append]
      omega

theorem visitList_some_decomp (song : Song) (verse_order : String)
    (h : song.properties.verse_order = some verse_order)
    (t : String) (i : Nat) (e : LyricEntry)
    (ht : (splitSpaces verse_order).getLast? = some t)
    (hf : findLyricEntry song.lyrics.lyrics t = some (i, e)) :
    ∃ vs, song.visitList = vs ++ [(i, e, true)] ∧ ∀ w ∈ vs, w.2.2 = false := by
  have hne : splitSpaces verse_order ≠ [] := by
    intro hnil; rw [hnil] at ht; simp at ht
  have h2 := List.getLast?_eq_getLast (splitSpaces verse_order) hne
  rw [ht] at h2
  have h3 : (splitSpaces verse_order).getLast hne = t := (Option.some.inj h2).symm
  have hsplit : (splitSpaces verse_order).dropLast ++ [t] = splitSpaces verse_order := by
    rw [← h3]
    exact List.dropLast_append_getLast hne
  simp only [Song.visitList, h]
  rw [← hsplit]
  obtain ⟨h1, h2'⟩ := filterMap_enum_last_flag song.lyrics.lyrics
    (splitSpaces verse_order).dropLast t i e hf
  exact ⟨_, h1, h2'⟩

/--
C3 counterexample: the claim fails as stated.  For the concrete song whose
stored-order last entry is a verse with zero lines, the expansion emits one
Lyrics slide (the song is non-empty in the sense of the claim) yet no
emitted slide has last_page true.
-/
theorem c3_lastpage_counterexample :
    c3State.slides_for_song 0
        = Except.ok [Slide.SongStart 0, Slide.Lyrics 0 0 0 false] ∧
      (([Slide.SongStart 0, Slide.Lyrics 0 0 0 false].filter
          Slide.isLyrics).length = 1 ∧
        ([Slide.SongStart 0, Slide.Lyrics 0 0 0 false].filter
          Slide.lastPageFlag).length = 0) := by
  constructor
  · rfl
  · constructor <;> rfl

/--
C3 amended: for any song whose last visited occurrence yields at least one
page (without a verse order: the stored-order last entry is an instrumental
entry or a verse with at least one line; with a verse order: the last token
resolves to such an entry), exactly one emitted Lyrics slide has last_page
true and it is the final slide in emission order, including under
verse-order repetition where the last visited occurrence is not the
storage-order last entry.  The amendment excludes the songs the
counterexample exhibits, whose last visited occurrence emits zero pages: for
them no slide carries last_page even when the expansion is non-empty.
-/
theorem c3_lastpage_unique_amended (s : State) (song_id : Nat) (song : Song)
    (h : bmGet s.songs song_id = some song)
    (hlast : 1 ≤ lastVisitPages song) :
    ∃ l, s.slides_for_song song_id = Except.ok l ∧
      ∃ sl, l.getLast? = some sl ∧ sl.lastPageFlag = true ∧
        (l.filter Slide.lastPageFlag).length = 1 := by
  refine ⟨songPageList song_id song, slides_for_song_eq s song_id song h, ?_⟩
  cases hvo : song.properties.verse_order with
  | none =>
    cases hl : song.lyrics.lyrics.getLast? with
    | none =>
      simp only [lastVisitPages, hvo, hl] at hlast
      exact absurd hlast (by omega)
    | some e =>
      simp only [lastVisitPages, hvo, hl] at hlast
      obtain ⟨vs, i, hdecomp, hflags⟩ := visitList_none_decomp song hvo e hl
      unfold songPageList
      rw [hdecomp]
      exact pageList_lastpage song_id vs i e hflags hlast
  | some verse_order =>
    cases ht : (splitSpaces verse_order).getLast? with
    | none =>
      simp only [lastVisitPages, hvo, ht] at hlast
      exact absurd hlast (by omega)
    | some t =>
      cases hf : findLyricEntry song.lyrics.lyrics t with
      | none =>
        simp only [lastVisitPages, hvo, ht, hf] at hlast
        exact absurd hlast (by omega)
      | some q =>
        simp only [lastVisitPages, hvo, ht, hf] at hlast
        obtain ⟨vs, hdecomp, hflags⟩ :=
          visitList_some_decomp song verse_order hvo t q.1 q.2 ht (by simpa using hf)
        unfold songPageList
        rw [hdecomp]
        exact pageList_lastpage song_id vs q.1 q.2 hflags hlast

/-- Witness for C3 at a concrete state with a verse order whose last token
revisits the chorus. -/
theorem c3_lastpage_unique_amended_witness :
    bmGet c3WitnessState.songs 0 = some c3WitnessSong ∧
      1 ≤ lastVisitPages c3WitnessSong ∧
      (∃ l, c3WitnessState.slides_for_song 0 = Except.ok l ∧
        ∃ sl, l.getLast? = some sl ∧ sl.lastPageFlag = true ∧
          (l.filter Slide.lastPageFlag).length = 1) :=
  ⟨by decide, by decide,
    c3_lastpage_unique_amended c3WitnessState 0 c3WitnessSong (by decide) (by decide)⟩

/-! ## Out-of-range coordinates (C4) -/

/--
C4 counterexample: the claim fails as stated.  For a playlist entry that
references a song id absent from the catalog, State::slide panics on the
indexing self.songs[song_id] (Except.error in the model) instead of
returning None, already at page index zero.
-/
theorem c4_counterexample :
    c4State.slide ⟨0, 0, 0⟩ = Except.error ("no entry found for key") := rfl

/--
C4 amended: State::slide returns None for every out-of-range coordinate
whose entry, when it is a Song entry, references an existing song — unknown
playlist id, entry index past the playlist, page index past a Text entry or
past the expansion of an existing song — and State::slides returns the
empty list for an unknown playlist id; but for a Song entry whose id is
absent from the catalog, State::slide panics (the counterexample) rather
than returning None.
-/
theorem c4_out_of_range_amended (s : State) (idx : SlideIndex) :
    (outOfRange s idx = true → s.slide idx = Except.ok none) ∧
    (bmGet s.playlists idx.playlist_id = none →
      s.slides idx.playlist_id = Except.ok []) := by
  constructor
  · intro h
    cases hpl : bmGet s.playlists idx.playlist_id with
    | none => simp only [State.slide, hpl]
    | some playlist =>
      cases he : playlist.entries[idx.entry_index]? with
      | none => simp only [State.slide, hpl, he]
      | some e =>
        cases e with
        | Text t =>
          simp only [outOfRange, hpl, he] at h
          rw [slide_text_eq s idx playlist t hpl he]
          rw [if_neg (by simpa using h)]
        | Song song_id =>
          simp only [outOfRange, hpl, he] at h
          cases hs : bmGet s.songs song_id with
          | none =>
            rw [hs] at h
            exact absurd h (by simp)
          | some song =>
            rw [hs] at h
            have hlen : (songPageList song_id song).length ≤ idx.page_index := by
              simpa using h
            rw [slide_song_eq s idx playlist song_id song hpl he hs]
            rw [List.getElem?_eq_none hlen]
  · intro h
    exact slides_none s idx.playlist_id h

/-- Witness for C4 amended at concrete states: a page index past the
expansion, and an unknown playlist id. -/
theorem c4_out_of_range_amended_witness :
    (outOfRange c4WitnessState ⟨42, 0, 4⟩ = true ∧
      c4WitnessState.slide ⟨42, 0, 4⟩ = Except.ok none) ∧
    (bmGet c4WitnessState.playlists 9 = none ∧
      c4WitnessState.slides 9 = Except.ok []) :=
  ⟨⟨by decide, (c4_out_of_range_amended c4WitnessState ⟨42, 0, 4⟩).1 (by decide)⟩,
   ⟨by decide, (c4_out_of_range_amended c4WitnessState ⟨9, 0, 0⟩).2 (by decide)⟩⟩

/-! ## Playlist reorder bounds (C5) -/

/--
C5: evaluation of Playlist::move_entry_index at the failing input.  With one
entry, entry_index 5 and offset -5, the target index 0 passes the only
bounds check of the source, and Vec::swap panics because entry_index itself
is out of bounds (Except.error in the model); the claim and the doc comment
of the function say this case returns false and leaves the entries
unchanged.
-/
theorem c5_move_entry_index_panics :
    c5Playlist.move_entry_index 5 (-5) = Except.error ("index out of bounds") := rfl

/-! ## Song dedup and id allocation (C6) -/

theorem find?_bmInsert_of_none {α : Type} (m : BMap α) (k : Nat) (v : α)
    (pred : Nat × α → Bool) (hm : m.find? pred = none) (hv : pred (k, v) = true) :
    (bmInsert m k v).find? pred = some (k, v) := by
  induction m with
  | nil => simp [bmInsert, List.find?, hv]
  | cons p rest ih =>
    have hall := List.find?_eq_none.mp hm
    have hp : ¬ pred p = true := hall p (by simp)
    have hrest : rest.find? pred = none :=
      List.find?_eq_none.mpr (fun x hx => hall x (List.mem_cons_of_mem _ hx))
    unfold bmInsert
    by_cases h1 : k < p.1
    · rw [if_pos h1]
      rw [List.find?_cons_of_pos _ hv]
    · rw [if_neg h1]
      by_cases h2 : k = p.1
      · rw [if_pos h2]
        rw [List.find?_cons_of_pos _ hv]
      · rw [if_neg h2]
        rw [List.find?_cons_of_neg _ hp]
        exact ih hrest

/--
C6: State::add_song is deduplicating and idempotent.  When a stored song is
structurally equal to the input, the call returns an existing id of such a
song and leaves the state unchanged; otherwise it inserts the song under a
fresh id, equal to the largest existing id plus one when the catalog is
non-empty, and calling add_song again with the same song returns the same
id and leaves the state unchanged.
-/
theorem c6_add_song_spec (s : State) (song : Song) :
    ((∃ p ∈ s.songs, p.2 = song) →
        (s.add_song song).2 = s ∧
        ∃ p ∈ s.songs, p.1 = (s.add_song song).1 ∧ p.2 = song) ∧
    ((∀ p ∈ s.songs, p.2 ≠ song) →
        bmGet s.songs (s.add_song song).1 = none ∧
        (s.add_song song).2.songs = bmInsert s.songs (s.add_song song).1 song ∧
        (s.songs ≠ [] → (s.add_song song).1 = maxKey s.songs + 1)) ∧
    ((s.add_song song).2.add_song song = s.add_song song) := by
  cases hf : s.songs.find? (fun p => p.2 == song) with
  | some q =>
    have hq2 : q.2 = song := by simpa using List.find?_some hf
    have hqm : q ∈ s.songs := List.mem_of_find?_eq_some hf
    refine ⟨?_, ?_, ?_⟩
    · intro _
      refine ⟨?_, q, hqm, ?_, hq2⟩
      · simp only [State.add_song, hf]
      · simp only [State.add_song, hf]
    · intro hnone
      exact absurd hq2 (hnone q hqm)
    · simp only [State.add_song, hf]
  | none =>
    have hall : ∀ p ∈ s.songs, ¬ (p.2 == song) = true := List.find?_eq_none.mp hf
    refine ⟨?_, ?_, ?_⟩
    · intro ⟨p, hp, hp2⟩
      exact absurd (by simpa using hp2) (hall p hp)
    · intro _
      refine ⟨?_, ?_, ?_⟩
      · simp only [State.add_song, hf]
        exact bmGet_freshId s.songs
      · simp only [State.add_song, hf]
      · intro hne
        simp only [State.add_song, hf]
        exact freshId_eq_maxKey_succ s.songs hne
    · simp only [State.add_song, hf]
      have hfind2 := find?_bmInsert_of_none s.songs
        ((s.songs.map (fun p => p.1 + 1)).foldr Nat.max 0) song
        (fun p => p.2 == song) hf (by simp)
      simp only [State.add_song, hfind2]

/-- Witness for C6 at concrete states: the dedup branch, the fresh-insert
branch with its id formula, and the idempotence equation. -/
theorem c6_add_song_spec_witness :
    ((∃ p ∈ c6DupState.songs, p.2 = c6Song) ∧
      ((c6DupState.add_song c6Song).2 = c6DupState ∧
        ∃ p ∈ c6DupState.songs, p.1 = (c6DupState.add_song c6Song).1 ∧ p.2 = c6Song)) ∧
    ((∀ p ∈ c6State.songs, p.2 ≠ c6Song) ∧
      (bmGet c6State.songs (c6State.add_song c6Song).1 = none ∧
        (c6State.add_song c6Song).2.songs
          = bmInsert c6State.songs (c6State.add_song c6Song).1 c6Song ∧
        (c6State.songs ≠ [] → (c6State.add_song c6Song).1 = maxKey c6State.songs + 1))) ∧
    ((c6State.add_song c6Song).1 = maxKey c6State.songs + 1) ∧
    ((c6State.add_song c6Song).2.add_song c6Song = c6State.add_song c6Song) :=
  ⟨⟨by decide, (c6_add_song_spec c6DupState c6Song).1 (by decide)⟩,
   ⟨by decide, (c6_add_song_spec c6State c6Song).2.1 (by decide)⟩,
   ((c6_add_song_spec c6State c6Song).2.1 (by decide)).2.2 (by decide),
   (c6_add_song_spec c6State c6Song).2.2⟩

/-! ## Removal safety (C7) -/

theorem removeSongEntry_ne (id : Nat) (e : PlaylistEntry) :
    removeSongEntry id e ≠ PlaylistEntry.Song id := by
  cases e with
  | Song song_id =>
    simp only [removeSongEntry]
    by_cases hs : (song_id == id) = true
    · rw [if_pos hs]
      intro h
      cases h
    · rw [if_neg hs]
      intro h
      cases h
      exact hs (by simp)
  | Text t =>
    intro h
    cases h

theorem removeSongEntry_refOk {s : State} {id : Nat} {e : PlaylistEntry}
    (hok : entryRefOk s e = true) :
    entryRefOk (s.remove_song id) (removeSongEntry id e) = true := by
  cases e with
  | Song song_id =>
    simp only [removeSongEntry]
    by_cases hs : (song_id == id) = true
    · rw [if_pos hs]
      rfl
    · rw [if_neg hs]
      unfold entryRefOk at hok ⊢
      show (bmGet (bmRemove s.songs id) song_id).isSome = true
      rw [bmGet_bmRemove_ne s.songs id song_id (by simpa using hs)]
      exact hok
  | Text t => rfl

theorem WF_remove_song {s : State} (id : Nat) (hwf : s.WF) :
    (s.remove_song id).WF := by
  intro p hp e he
  rcases List.mem_map.mp hp with ⟨q, hq, hfq⟩
  subst hfq
  rcases List.mem_map.mp he with ⟨e0, he0, hge⟩
  subst hge
  exact removeSongEntry_refOk (hwf q hq e0 he0)

theorem slide_ok_of_WF (s : State) (hwf : s.WF) (idx : SlideIndex) :
    ∃ v, s.slide idx = Except.ok v := by
  cases hpl : bmGet s.playlists idx.playlist_id with
  | none => exact ⟨none, by simp [State.slide, hpl]⟩
  | some playlist =>
    cases he : playlist.entries[idx.entry_index]? with
    | none => exact ⟨none, by simp [State.slide, hpl, he]⟩
    | some e =>
      cases e with
      | Song song_id =>
        have hok := WF_entries_ok hwf hpl (PlaylistEntry.Song song_id)
          (List.getElem?_mem he)
        unfold entryRefOk at hok
        rcases Option.isSome_iff_exists.mp hok with ⟨song, hsong⟩
        exact ⟨_, slide_song_eq s idx playlist song_id song hpl he hsong⟩
      | Text t => exact ⟨_, slide_text_eq s idx playlist t hpl he⟩

/--
C7: after State::remove_song(id) the catalog no longer contains id, no
playlist entry anywhere references id (each referencing entry has been
rewritten to the placeholder Text entry), remove_song itself is total, and
when the original state satisfies the reference invariant, State::slide and
State::slides never panic afterwards.
-/
theorem c7_remove_song_safety (s : State) (id : Nat) :
    bmGet (s.remove_song id).songs id = none ∧
    (∀ p ∈ (s.remove_song id).playlists, ∀ e ∈ p.2.entries,
      e ≠ PlaylistEntry.Song id) ∧
    (s.WF → ∀ idx : SlideIndex,
      (∃ v, (s.remove_song id).slide idx = Except.ok v) ∧
      (∃ l, (s.remove_song id).slides idx.playlist_id = Except.ok l)) := by
  refine ⟨bmGet_bmRemove_self s.songs id, ?_, ?_⟩
  · intro p hp e he
    rcases List.mem_map.mp hp with ⟨q, hq, hfq⟩
    subst hfq
    rcases List.mem_map.mp he with ⟨e0, he0, hge⟩
    subst hge
    exact removeSongEntry_ne id e0
  · intro hwf idx
    have hwf2 := WF_remove_song id hwf
    exact ⟨slide_ok_of_WF _ hwf2 idx,
      ⟨_, slides_ok_of_WF _ idx.playlist_id hwf2⟩⟩

/-- Witness for C7 at a concrete state: removing the referenced song of a
playlist and probing a coordinate afterwards. -/
theorem c7_remove_song_safety_witness :
    bmGet (c7State.remove_song 0).songs 0 = none ∧
      ((c7State.remove_song 0).slide ⟨42, 0, 0⟩
          = Except.ok (some (Slide.Text "Song removed")) ∧
        ∃ v, (c7State.remove_song 0).slide ⟨42, 0, 0⟩ = Except.ok v) ∧
      ∃ l, (c7State.remove_song 0).slides 42 = Except.ok l :=
  ⟨(c7_remove_song_safety c7State 0).1,
   ⟨by decide,
    ((c7_remove_song_safety c7State 0).2.2 (by decide) ⟨42, 0, 0⟩).1⟩,
   ((c7_remove_song_safety c7State 0).2.2 (by decide) ⟨42, 0, 0⟩).2⟩

/-! ## Merge (C8) -/

theorem bmGet_of_mem_nodup {α : Type} {m : BMap α}
    (hnd : (m.map (fun p => p.1)).Nodup) {k : Nat} {v : α} (h : (k, v) ∈ m) :
    bmGet m k = some v := by
  induction m with
  | nil => simp at h
  | cons p rest ih =>
    rcases List.mem_cons.mp h with h | h
    · rw [← h]
      exact bmGet_cons_self (k, v) rest
    · have hp1 : p.1 ≠ k := by
        intro he
        have hk : k ∈ rest.map (fun p => p.1) :=
          List.mem_map.mpr ⟨(k, v), h, rfl⟩
        rw [List.map_cons] at hnd
        have := (List.nodup_cons.mp hnd).1
        rw [he] at this
        exact this hk
      rw [bmGet_cons_ne p rest k hp1]
      exact ih (by
        rw [List.map_cons] at hnd
        exact (List.nodup_cons.mp hnd).2) h

theorem bmInsert_keys_nodup {α : Type} (m : BMap α) (k : Nat) (v : α)
    (hk : ∀ p ∈ m, p.1 ≠ k) (hnd : (m.map (fun p => p.1)).Nodup) :
    ((bmInsert m k v).map (fun p => p.1)).Nodup := by
  induction m with
  | nil => simp [bmInsert]
  | cons p rest ih =>
    rw [List.map_cons] at hnd
    obtain ⟨hp, hrest⟩ := List.nodup_cons.mp hnd
    unfold bmInsert
    by_cases h1 : k < p.1
    · rw [if_pos h1, List.map_cons, List.map_cons]
      apply List.nodup_cons.mpr
      refine ⟨?_, hnd⟩
      intro hmem
      rcases List.mem_cons.mp hmem with h | h
      · exact hk p (by simp) h.symm
      · rcases List.mem_map.mp h with ⟨q, hq, hq1⟩
        exact hk q (List.mem_cons_of_mem _ hq) hq1
    · rw [if_neg h1]
      by_cases h2 : k = p.1
      · exact absurd h2.symm (hk p (by simp))
      · rw [if_neg h2, List.map_cons]
        apply List.nodup_cons.mpr
        refine ⟨?_, ih (fun q hq => hk q (List.mem_cons_of_mem _ hq)) hrest⟩
        intro hmem
        rcases List.mem_map.mp hmem with ⟨q, hq, hq1⟩
        rcases mem_bmInsert hq with h | h
        · rw [h] at hq1
          exact h2 (by simpa using hq1)
        · exact hp (List.mem_map.mpr ⟨q, h, hq1⟩)

theorem add_song_playlists (s : State) (song : Song) :
    (s.add_song song).2.playlists = s.playlists := by
  cases hf : s.songs.find? (fun p => p.2 == song) with
  | some q => simp only [State.add_song, hf]
  | none => simp only [State.add_song, hf]

theorem add_song_preserves (s : State) (song : Song) (k : Nat) (v : Song)
    (h : bmGet s.songs k = some v) :
    bmGet (s.add_song song).2.songs k = some v := by
  cases hf : s.songs.find? (fun p => p.2 == song) with
  | some q => simp only [State.add_song, hf]; exact h
  | none =>
    simp only [State.add_song, hf]
    have hne : k ≠ (s.songs.map (fun p => p.1 + 1)).foldr Nat.max 0 := by
      intro he
      rw [he, bmGet_freshId] at h
      cases h
    rw [bmGet_bmInsert_ne _ _ _ _ hne]
    exact h

theorem add_song_returns (s : State) (song : Song)
    (hnd : (s.songs.map (fun p => p.1)).Nodup) :
    bmGet (s.add_song song).2.songs (s.add_song song).1 = some song := by
  cases hf : s.songs.find? (fun p => p.2 == song) with
  | some q =>
    have hq2 : q.2 = song := by simpa using List.find?_some hf
    have hqm : q ∈ s.songs := List.mem_of_find?_eq_some hf
    simp only [State.add_song, hf]
    rw [show q = (q.1, q.2) from rfl] at hqm
    rw [hq2] at hqm
    exact bmGet_of_mem_nodup hnd hqm
  | none =>
    simp only [State.add_song, hf]
    exact bmGet_bmInsert_self s.songs _ song

theorem add_song_keys_nodup (s : State) (song : Song)
    (hnd : (s.songs.map (fun p => p.1)).Nodup) :
    ((s.add_song song).2.songs.map (fun p => p.1)).Nodup := by
  cases hf : s.songs.find? (fun p => p.2 == song) with
  | some q => simp only [State.add_song, hf]; exact hnd
  | none =>
    simp only [State.add_song, hf]
    apply bmInsert_keys_nodup s.songs _ song ?_ hnd
    intro p hp he
    have := freshId_gt s.songs p hp
    omega

theorem foldl_mergeSongsStep_spec (L : List (Nat × Song)) (st : State) (m : BMap Nat)
    (hnd : (st.songs.map (fun p => p.1)).Nodup) :
    ((L.foldl mergeSongsStep (st, m)).1.songs.map (fun p => p.1)).Nodup ∧
    (∀ k v, bmGet st.songs k = some v →
      bmGet (L.foldl mergeSongsStep (st, m)).1.songs k = some v) ∧
    (∀ q ∈ L, ∃ k, bmGet (L.foldl mergeSongsStep (st, m)).1.songs k = some q.2) ∧
    (L.foldl mergeSongsStep (st, m)).1.playlists = st.playlists := by
  induction L generalizing st m with
  | nil => exact ⟨hnd, fun k v h => h, fun q hq => absurd hq (List.not_mem_nil q), rfl⟩
  | cons q rest ih =>
    simp only [List.foldl]
    obtain ⟨ih1, ih2, ih3, ih4⟩ :=
      ih (st.add_song q.2).2 (bmInsert m q.1 (st.add_song q.2).1)
        (add_song_keys_nodup st q.2 hnd)
    refine ⟨ih1, ?_, ?_, ?_⟩
    · intro k v h
      exact ih2 k v (add_song_preserves st q.2 k v h)
    · intro q2 hq2
      rcases List.mem_cons.mp hq2 with h | h
      · subst h
        exact ⟨(st.add_song q2.2).1, ih2 _ _ (add_song_returns st q2.2 hnd)⟩
      · exact ih3 q2 h
    · rw [show mergeSongsStep (st, m) q
          = ((st.add_song q.2).2, bmInsert m q.1 (st.add_song q.2).1) from rfl]
      rw [ih4, add_song_playlists]

theorem add_playlist_preserves (s : State) (pl : Playlist) (k : Nat) (v : Playlist)
    (h : bmGet s.playlists k = some v) :
    bmGet (s.add_playlist pl).2.playlists k = some v := by
  simp only [State.add_playlist]
  have hne : k ≠ (s.playlists.map (fun p => p.1 + 1)).foldr Nat.max 0 := by
    intro he
    rw [he, bmGet_freshId] at h
    cases h
  rw [bmGet_bmInsert_ne _ _ _ _ hne]
  exact h

theorem add_playlist_keys_nodup (s : State) (pl : Playlist)
    (hnd : (s.playlists.map (fun p => p.1)).Nodup) :
    ((s.add_playlist pl).2.playlists.map (fun p => p.1)).Nodup := by
  simp only [State.add_playlist]
  apply bmInsert_keys_nodup s.playlists _ pl ?_ hnd
  intro p hp he
  have := freshId_gt s.playlists p hp
  omega

theorem foldl_mergePlaylistStep_spec (m : BMap Nat) (L : List (Nat × Playlist))
    (st : State) (hnd : (st.playlists.map (fun p => p.1)).Nodup) :
    ((L.foldl (mergePlaylistStep m) st).playlists.map (fun p => p.1)).Nodup ∧
    (∀ k v, bmGet st.playlists k = some v →
      bmGet (L.foldl (mergePlaylistStep m) st).playlists k = some v) ∧
    (∀ q ∈ L, ∃ k, bmGet (L.foldl (mergePlaylistStep m) st).playlists k
      = some (rewritePlaylist m q.2)) := by
  induction L generalizing st with
  | nil => exact ⟨hnd, fun k v h => h, fun q hq => absurd hq (List.not_mem_nil q)⟩
  | cons q rest ih =>
    simp only [List.foldl]
    by_cases hany : st.playlists.any (fun r => r.2 == rewritePlaylist m q.2) = true
    · rw [show mergePlaylistStep m st q = st by
        simp only [mergePlaylistStep, hany, if_true]]
      obtain ⟨ih1, ih2, ih3⟩ := ih st hnd
      refine ⟨ih1, ih2, ?_⟩
      intro q2 hq2
      rcases List.mem_cons.mp hq2 with h | h
      · subst h
        rcases List.any_eq_true.mp hany with ⟨r, hr, hrq⟩
        have hr2 : r.2 = rewritePlaylist m q2.2 := by simpa using hrq
        refine ⟨r.1, ih2 r.1 _ ?_⟩
        rw [← hr2]
        exact bmGet_of_mem_nodup hnd (by rw [show (r.1, r.2) = r from rfl]; exact hr)
      · exact ih3 q2 h
    · rw [show mergePlaylistStep m st q = (st.add_playlist (rewritePlaylist m q.2)).2 by
        simp only [mergePlaylistStep]
        rw [if_neg hany]]
      obtain ⟨ih1, ih2, ih3⟩ :=
        ih (st.add_playlist (rewritePlaylist m q.2)).2
          (add_playlist_keys_nodup st _ hnd)
      refine ⟨ih1, ?_, ?_⟩
      · intro k v h
        exact ih2 k v (add_playlist_preserves st _ k v h)
      · intro q2 hq2
        rcases List.mem_cons.mp hq2 with h | h
        · subst h
          refine ⟨(st.add_playlist (rewritePlaylist m q2.2)).1, ih2 _ _ ?_⟩
          simp only [State.add_playlist]
          exact bmGet_bmInsert_self st.playlists _ _
        · exact ih3 q2 h

theorem foldl_mergePlaylistStep_songs (m : BMap Nat) (L : List (Nat × Playlist))
    (st : State) : (L.foldl (mergePlaylistStep m) st).songs = st.songs := by
  induction L generalizing st with
  | nil => rfl
  | cons q rest ih =>
    simp only [List.foldl]
    rw [ih]
    unfold mergePlaylistStep
    by_cases hany : st.playlists.any (fun r => r.2 == rewritePlaylist m q.2) = true
    · rw [if_pos hany]
    · rw [if_neg hany]
      rfl

theorem foldl_mergePlaylistStep_theme (m : BMap Nat) (L : List (Nat × Playlist))
    (st : State) : (L.foldl (mergePlaylistStep m) st).theme = st.theme := by
  induction L generalizing st with
  | nil => rfl
  | cons q rest ih =>
    simp only [List.foldl]
    rw [ih]
    unfold mergePlaylistStep
    by_cases hany : st.playlists.any (fun r => r.2 == rewritePlaylist m q.2) = true
    · rw [if_pos hany]
    · rw [if_neg hany]
      rfl

theorem add_song_dedup_unchanged (s : State) (song : Song)
    (h : ∃ p ∈ s.songs, p.2 = song) : (s.add_song song).2 = s := by
  obtain ⟨p, hp, hp2⟩ := h
  cases hf : s.songs.find? (fun p => p.2 == song) with
  | some q => simp only [State.add_song, hf]
  | none =>
    have := List.find?_eq_none.mp hf p hp
    exact absurd (by simpa using hp2) this

theorem foldl_mergeSongsStep_all_dedup (L : List (Nat × Song)) (st : State)
    (m : BMap Nat) (h : ∀ q ∈ L, ∃ p ∈ st.songs, p.2 = q.2) :
    (L.foldl mergeSongsStep (st, m)).1 = st := by
  induction L generalizing m with
  | nil => rfl
  | cons q rest ih =>
    simp only [List.foldl]
    rw [show mergeSongsStep (st, m) q
        = ((st.add_song q.2).2, bmInsert m q.1 (st.add_song q.2).1) from rfl]
    rw [add_song_dedup_unchanged st q.2 (h q (by simp))]
    exact ih _ (fun q2 hq2 => h q2 (List.mem_cons_of_mem _ hq2))

theorem foldl_mergeSongsStep_mapping_preserved (L : List (Nat × Song)) (st : State)
    (m : BMap Nat) (oid : Nat) (hoid : ∀ q ∈ L, q.1 ≠ oid) :
    bmGet (L.foldl mergeSongsStep (st, m)).2 oid = bmGet m oid := by
  induction L generalizing st m with
  | nil => rfl
  | cons q rest ih =>
    simp only [List.foldl]
    rw [show mergeSongsStep (st, m) q
        = ((st.add_song q.2).2, bmInsert m q.1 (st.add_song q.2).1) from rfl]
    rw [ih _ _ (fun q2 hq2 => hoid q2 (List.mem_cons_of_mem _ hq2))]
    exact bmGet_bmInsert_ne m q.1 oid _ (fun he => hoid q (by simp) he.symm)

theorem foldl_mergeSongsStep_mapping (L : List (Nat × Song)) (st : State)
    (m : BMap Nat) (hnd : (st.songs.map (fun p => p.1)).Nodup)
    (hLnd : (L.map (fun q => q.1)).Nodup) :
    ∀ q ∈ L, ∃ k, bmGet (L.foldl mergeSongsStep (st, m)).2 q.1 = some k ∧
      bmGet (L.foldl mergeSongsStep (st, m)).1.songs k = some q.2 := by
  induction L generalizing st m with
  | nil => intro q hq; simp at hq
  | cons q rest ih =>
    intro q2 hq2
    rw [List.map_cons] at hLnd
    obtain ⟨hL1, hL2⟩ := List.nodup_cons.mp hLnd
    simp only [List.foldl]
    rw [show mergeSongsStep (st, m) q
        = ((st.add_song q.2).2, bmInsert m q.1 (st.add_song q.2).1) from rfl]
    rcases List.mem_cons.mp hq2 with h | h
    · subst h
      refine ⟨(st.add_song q2.2).1, ?_, ?_⟩
      · rw [foldl_mergeSongsStep_mapping_preserved rest _ _ q2.1
          (fun q3 hq3 he => hL1 (List.mem_map.mpr ⟨q3, hq3, he⟩))]
        exact bmGet_bmInsert_self m q2.1 _
      · exact (foldl_mergeSongsStep_spec rest _ _
          (add_song_keys_nodup st q2.2 hnd)).2.1 _ _ (add_song_returns st q2.2 hnd)
    · exact ih _ _ (add_song_keys_nodup st q.2 hnd) hL2 q2 h

theorem bmInsert_values_nodup {α : Type} (m : BMap α) (k : Nat) (v : α)
    (hv : ∀ p ∈ m, p.2 ≠ v) (hnd : (m.map (fun p => p.2)).Nodup) :
    ((bmInsert m k v).map (fun p => p.2)).Nodup := by
  induction m with
  | nil => simp [bmInsert]
  | cons p rest ih =>
    rw [List.map_cons] at hnd
    obtain ⟨hp, hrest⟩ := List.nodup_cons.mp hnd
    unfold bmInsert
    by_cases h1 : k < p.1
    · rw [if_pos h1, List.map_cons, List.map_cons]
      apply List.nodup_cons.mpr
      refine ⟨?_, hnd⟩
      intro hmem
      rcases List.mem_cons.mp hmem with h | h
      · exact hv p (by simp) h.symm
      · rcases List.mem_map.mp h with ⟨q, hq, hq2⟩
        exact hv q (List.mem_cons_of_mem _ hq) hq2
    · rw [if_neg h1]
      by_cases h2 : k = p.1
      · rw [if_pos h2, List.map_cons]
        apply List.nodup_cons.mpr
        refine ⟨?_, hrest⟩
        intro hmem
        rcases List.mem_map.mp hmem with ⟨q, hq, hq2⟩
        exact hv q (List.mem_cons_of_mem _ hq) hq2
      · rw [if_neg h2, List.map_cons]
        apply List.nodup_cons.mpr
        refine ⟨?_, ih (fun q hq => hv q (List.mem_cons_of_mem _ hq)) hrest⟩
        intro hmem
        rcases List.mem_map.mp hmem with ⟨q, hq, hq2⟩
        rcases mem_bmInsert hq with h | h
        · rw [h] at hq2
          exact hv p (by simp) (by simpa using hq2.symm)
        · exact hp (List.mem_map.mpr ⟨q, h, hq2⟩)

theorem foldl_mergePlaylistStep_values_nodup (m : BMap Nat)
    (L : List (Nat × Playlist)) (st : State)
    (hnd : (st.playlists.map (fun p => p.2)).Nodup) :
    ((L.foldl (mergePlaylistStep m) st).playlists.map (fun p => p.2)).Nodup := by
  induction L generalizing st with
  | nil => exact hnd
  | cons q rest ih =>
    simp only [List.foldl]
    by_cases hany : st.playlists.any (fun r => r.2 == rewritePlaylist m q.2) = true
    · rw [show mergePlaylistStep m st q = st by
        simp only [mergePlaylistStep, hany, if_true]]
      exact ih st hnd
    · rw [show mergePlaylistStep m st q = (st.add_playlist (rewritePlaylist m q.2)).2 by
        simp only [mergePlaylistStep]
        rw [if_neg hany]]
      apply ih
      simp only [State.add_playlist]
      apply bmInsert_values_nodup st.playlists _ _ ?_ hnd
      intro p hp he
      apply hany
      apply List.any_eq_true.mpr
      exact ⟨p, hp, by simpa using he⟩

/--
C8: after State::merge(other), the theme is overwritten with the theme of
the other state; every song of the other state is present in the result
under the id recorded in the mapping returned by add_song for it; songs are
deduplicated against self's catalog: if every imported song already has a
structurally equal song stored in self, the song catalog is unchanged; every
playlist of the other state, rewritten through the recorded song id mapping,
is present in the result; a rewritten playlist is added only if no
structurally equal playlist already exists, so merge preserves pairwise
distinctness of playlist values (a blindly appending merge would create a
duplicate); and merging a state holding one song X and one playlist
referencing X into the empty state yields exactly one song and one playlist
whose entry references the newly assigned id 0 of X rather than the
original id.
-/
theorem c8_merge_spec (s other : State)
    (hnds : (s.songs.map (fun p => p.1)).Nodup)
    (hndp : (s.playlists.map (fun p => p.1)).Nodup)
    (hndo : (other.songs.map (fun p => p.1)).Nodup) :
    (s.merge other).theme = other.theme ∧
    (∀ q ∈ other.songs, ∃ k, bmGet (mergeSongs s other).2 q.1 = some k ∧
      bmGet (s.merge other).songs k = some q.2) ∧
    ((∀ q ∈ other.songs, ∃ p ∈ s.songs, p.2 = q.2) →
      (s.merge other).songs = s.songs) ∧
    (∀ q ∈ other.playlists, ∃ k, bmGet (s.merge other).playlists k
      = some (rewritePlaylist (mergeSongs s other).2 q.2)) ∧
    ((s.playlists.map (fun p => p.2)).Nodup →
      ((s.merge other).playlists.map (fun p => p.2)).Nodup) ∧
    (∀ (X : Song) (xid ppid : Nat) (nm : String) (th : Theme),
      emptyState.merge
        { songs := [(xid, X)],
          playlists := [(ppid, { name := nm, entries := [PlaylistEntry.Song xid] })],
          theme := th }
      = { songs := [(0, X)],
          playlists := [(0, { name := nm, entries := [PlaylistEntry.Song 0] })],
          theme := th }) := by
  have hsongsfold := foldl_mergeSongsStep_spec other.songs s [] hnds
  have hsongs : (s.merge other).songs = (mergeSongs s other).1.songs := by
    simp only [State.merge]
    exact foldl_mergePlaylistStep_songs _ _ _
  have hpls : (s.merge other).playlists
      = (other.playlists.foldl (mergePlaylistStep (mergeSongs s other).2)
          (mergeSongs s other).1).playlists := rfl
  refine ⟨rfl, ?_, ?_, ?_, ?_, ?_⟩
  · intro q hq
    obtain ⟨k, hm, hk⟩ :=
      foldl_mergeSongsStep_mapping other.songs s [] hnds hndo q hq
    refine ⟨k, hm, ?_⟩
    rw [hsongs]
    exact hk
  · intro hex
    rw [hsongs,
      show (mergeSongs s other).1 = s from
        foldl_mergeSongsStep_all_dedup other.songs s [] hex]
  · intro q hq
    have hnd1 : ((mergeSongs s other).1.playlists.map (fun p => p.1)).Nodup := by
      rw [show (mergeSongs s other).1.playlists = s.playlists from hsongsfold.2.2.2]
      exact hndp
    have hplfold := foldl_mergePlaylistStep_spec (mergeSongs s other).2
      other.playlists (mergeSongs s other).1 hnd1
    rw [hpls]
    exact hplfold.2.2 q hq
  · intro hvnd
    rw [hpls]
    apply foldl_mergePlaylistStep_values_nodup
    rw [show (mergeSongs s other).1.playlists = s.playlists from hsongsfold.2.2.2]
    exact hvnd
  · intro X xid ppid nm th
    have hx : (xid == xid) = true := by simp
    simp [State.merge, mergeSongs, mergeSongsStep, mergePlaylistStep, State.add_song,
      State.add_playlist, rewritePlaylist, rewriteEntry, bmInsert, bmGet, emptyState,
      List.find?, hx]

/-- Witness for C8 at concrete states: the theme overwrite; the imported
song is present under its recorded mapping id; since the imported song is
structurally equal to a stored one, the song catalog is unchanged (the
dedup branch fires); the rewritten playlist is present; the merged playlist
values stay pairwise distinct; and the scenario of merging one song and one
referencing playlist into the empty state. -/
theorem c8_merge_spec_witness :
    (c8State.merge c8Other).theme = c8Other.theme ∧
    (∃ k, bmGet (mergeSongs c8State c8Other).2 9 = some k ∧
      bmGet (c8State.merge c8Other).songs k = some c8Song) ∧
    (c8State.merge c8Other).songs = c8State.songs ∧
    (∃ k, bmGet (c8State.merge c8Other).playlists k
      = some (rewritePlaylist (mergeSongs c8State c8Other).2
          { name := "Q", entries := [PlaylistEntry.Song 9] })) ∧
    ((c8State.merge c8Other).playlists.map (fun p => p.2)).Nodup ∧
    (emptyState.merge
        { songs := [(9, c8Song)],
          playlists := [(1, { name := "Q", entries := [PlaylistEntry.Song 9] })],
          theme := Theme.default }
      = { songs := [(0, c8Song)],
          playlists := [(0, { name := "Q", entries := [PlaylistEntry.Song 0] })],
          theme := Theme.default }) :=
  ⟨(c8_merge_spec c8State c8Other (by decide) (by decide) (by decide)).1,
   (c8_merge_spec c8State c8Other (by decide) (by decide) (by decide)).2.1
     (9, c8Song) (by decide),
   (c8_merge_spec c8State c8Other (by decide) (by decide) (by decide)).2.2.1
     (by decide),
   (c8_merge_spec c8State c8Other (by decide) (by decide) (by decide)).2.2.2.1
     (1, { name := "Q", entries := [PlaylistEntry.Song 9] }) (by decide),
   (c8_merge_spec c8State c8Other (by decide) (by decide) (by decide)).2.2.2.2.1
     (by decide),
   (c8_merge_spec c8State c8Other (by decide) (by decide) (by decide)).2.2.2.2.2
     c8Song 9 1 "Q" Theme.default⟩

/-! ## Credit block (C9) -/

theorem visitList_mem_entry (song : Song) (v : Nat × LyricEntry × Bool)
    (hv : v ∈ song.visitList) :
    song.lyrics.lyrics[v.1]? = some v.2.1 := by
  unfold Song.visitList at hv
  cases hvo : song.properties.verse_order with
  | none =>
    rw [hvo] at hv
    rcases List.mem_map.mp hv with ⟨p, hp, hpe⟩
    rw [← hpe]
    exact (mem_enum_iff _ _ _).mp (by rcases p with ⟨a, b⟩; exact hp)
  | some verse_order =>
    rw [hvo] at hv
    rcases List.mem_filterMap.mp hv with ⟨p, hp, hpe⟩
    cases hf : findLyricEntry song.lyrics.lyrics p.2 with
    | none => rw [hf] at hpe; cases hpe
    | some q =>
      rw [hf] at hpe
      have hq : q ∈ song.lyrics.lyrics.enum :=
        List.mem_of_find?_eq_some hf
      have := Option.some.inj hpe
      rw [← this]
      exact (mem_enum_iff _ _ _).mp (by rcases q with ⟨a, b⟩; exact hq)

theorem song_page_eval (song : Song) (i li : Nat) (theme : Theme) (e : LyricEntry)
    (he : song.lyrics.lyrics[i]? = some e)
    (htitles : song.properties.titles.titles ≠ [])
    (hbound : match e with
      | LyricEntry.Verse _ _ _ lines => li < lines.length
      | LyricEntry.Instrument _ _ => True) :
    ∃ sc, SlideContent.song_page song i li theme = Except.ok sc ∧
      sc.credit = (if storageLastPage song i li = true
        then some (authors_as_string song) else none) := by
  have ht : ∃ t, song.properties.titles.titles[0]? = some t := by
    cases htt : song.properties.titles.titles[0]? with
    | none =>
      have hlen := List.getElem?_eq_none_iff.mp htt
      exact absurd (List.eq_nil_of_length_eq_zero (by omega)) htitles
    | some t => exact ⟨t, rfl⟩
  rcases ht with ⟨t, ht⟩
  have htfs : title_for_song song = Except.ok t.title := by
    simp [title_for_song, ht]
  cases e with
  | Verse nm lg tr lines =>
    have hline : ∃ line, lines[li]? = some line := by
      cases hll : lines[li]? with
      | none =>
        have := List.getElem?_eq_none_iff.mp hll
        simp only at hbound
        omega
      | some line => exact ⟨line, rfl⟩
    rcases hline with ⟨line, hll⟩
    simp only [SlideContent.song_page, he, hll, storageLastPage]
    by_cases hti : (i == 0 && li == 0) = true
    · rw [if_pos hti]
      simp [htfs, Except.bind]
    · rw [if_neg hti]
      simp [Except.bind]
      exact ⟨_, rfl, rfl⟩
  | Instrument nm lines =>
    simp only [SlideContent.song_page, he, storageLastPage]
    by_cases hti : (i == 0 && li == 0) = true
    · rw [if_pos hti]
      simp [htfs, Except.bind]
    · rw [if_neg hti]
      simp [Except.bind]
      exact ⟨_, rfl, rfl⟩

/--
C9 counterexample: the claim fails as stated.  For the concrete song with
verse order c v1, the final expanded slide is Lyrics at lyric entry 0, line
0, with last_page true, yet the formatted content for that page has credit
none, because song_page derives the credit from the storage-order position
rather than from last_page.
-/
theorem c9_credit_counterexample :
    c9State.slides_for_song 0 = Except.ok
      [Slide.SongStart 0, Slide.Lyrics 0 1 0 false, Slide.Lyrics 0 0 0 true] ∧
    SlideContent.song_page c9Song 0 0 Theme.default = Except.ok
      { title := some "T", lines := [], credit := none, theme := Theme.default } := by
  constructor
  · rfl
  · rfl

/--
C9 amended: for every Lyrics slide emitted by slides_for_song for a song
with at least one title, song_page succeeds, and its credit field is the
comma-joined authors string exactly when the slide addresses the last
STORED lyric entry at its last page (storageLastPage), independently of the
last_page flag of the slide; under a verse order whose last visited
occurrence is not the storage-order last entry, the two conditions diverge,
as the counterexample shows.
-/
theorem c9_credit_amended (s : State) (song_id : Nat) (song : Song) (theme : Theme)
    (hs : bmGet s.songs song_id = some song)
    (htitles : song.properties.titles.titles ≠ [])
    (l : List Slide) (hl : s.slides_for_song song_id = Except.ok l)
    (i li : Nat) (lp : Bool) (hmem : Slide.Lyrics song_id i li lp ∈ l) :
    ∃ sc, SlideContent.song_page song i li theme = Except.ok sc ∧
      sc.credit = (if storageLastPage song i li = true
        then some (authors_as_string song) else none) := by
  rw [slides_for_song_eq s song_id song hs] at hl
  have hl2 : l = songPageList song_id song := (Except.ok.inj hl).symm
  subst hl2
  rcases List.mem_cons.mp hmem with h | h
  · cases h
  · rcases List.mem_flatMap.mp h with ⟨v, hv, hin⟩
    have hentry := visitList_mem_entry song v hv
    rcases v with ⟨j, e, b⟩
    cases e with
    | Verse nm lg tr lines =>
      rcases List.mem_map.mp hin with ⟨k, hk, hke⟩
      simp only [Slide.Lyrics.injEq] at hke
      obtain ⟨-, hji, hkli, -⟩ := hke
      have hkb : k < lines.length := List.mem_range.mp hk
      refine song_page_eval song i li theme (LyricEntry.Verse nm lg tr lines)
        ?_ htitles ?_
      · rw [← hji]
        exact hentry
      · simp only
        omega
    | Instrument nm lines =>
      simp only [entryPages, List.mem_singleton, Slide.Lyrics.injEq] at hin
      obtain ⟨-, hji, hkli, -⟩ := hin
      refine song_page_eval song i li theme (LyricEntry.Instrument nm lines)
        ?_ htitles trivial
      · rw [hji]
        exact hentry

/-- Witness for C9 amended at the concrete song with verse order c v1. -/
theorem c9_credit_amended_witness :
    bmGet c9State.songs 0 = some c9Song ∧
      c9Song.properties.titles.titles ≠ [] ∧
      c9State.slides_for_song 0 = Except.ok
        [Slide.SongStart 0, Slide.Lyrics 0 1 0 false, Slide.Lyrics 0 0 0 true] ∧
      Slide.Lyrics 0 0 0 true
        ∈ [Slide.SongStart 0, Slide.Lyrics 0 1 0 false, Slide.Lyrics 0 0 0 true] ∧
      (∃ sc, SlideContent.song_page c9Song 0 0 Theme.default = Except.ok sc ∧
        sc.credit = (if storageLastPage c9Song 0 0 = true
          then some (authors_as_string c9Song) else none)) :=
  ⟨by decide, by decide, by decide, by decide,
   c9_credit_amended c9State 0 c9Song Theme.default (by decide) (by decide)
     [Slide.SongStart 0, Slide.Lyrics 0 1 0 false, Slide.Lyrics 0 0 0 true]
     (by decide) 0 0 true (by decide)⟩

/-! ## SlideIndex string round trip (C10) -/

theorem digitChar_toNat : ∀ d, d < 10 → (digitChar d).toNat = 48 + d := by decide

theorem digitChar_isDigit : ∀ d, d < 10 → (digitChar d).isDigit = true := by decide

theorem natDigitsAux_all_digit (fuel : Nat) :
    ∀ n, n < fuel → ∀ c ∈ natDigitsAux fuel n, c.isDigit = true := by
  induction fuel with
  | zero => intro n hn; omega
  | succ fuel ih =>
    intro n hn c hc
    unfold natDigitsAux at hc
    by_cases h10 : n < 10
    · rw [if_pos h10] at hc
      rcases List.mem_singleton.mp hc with h
      rw [h]
      exact digitChar_isDigit n h10
    · rw [if_neg h10] at hc
      rcases List.mem_append.mp hc with h | h
      · exact ih (n / 10) (by omega) c h
      · rcases List.mem_singleton.mp h with h
        rw [h]
        exact digitChar_isDigit (n % 10) (by omega)

theorem natDigitsAux_ne_nil (fuel n : Nat) (h : n < fuel) :
    natDigitsAux fuel n ≠ [] := by
  cases fuel with
  | zero => omega
  | succ fuel =>
    unfold natDigitsAux
    by_cases h10 : n < 10
    · rw [if_pos h10]
      simp
    · rw [if_neg h10]
      simp

theorem natDigitsAux_foldl (fuel : Nat) :
    ∀ n a, n < fuel →
      (natDigitsAux fuel n).foldl (fun acc c => acc * 10 + (c.toNat - 48)) a
        = a * 10 ^ (natDigitsAux fuel n).length + n := by
  induction fuel with
  | zero => intro n a hn; omega
  | succ fuel ih =>
    intro n a hn
    unfold natDigitsAux
    by_cases h10 : n < 10
    · rw [if_pos h10]
      simp only [List.foldl, List.length_singleton]
      rw [digitChar_toNat n h10]
      ring_nf
      omega
    · rw [if_neg h10]
      rw [List.foldl_append, List.length_append]
      rw [ih (n / 10) a (by omega)]
      simp only [List.foldl, List.length_singleton]
      rw [digitChar_toNat (n % 10) (by omega)]
      rw [pow_succ]
      have hmod : 48 + n % 10 - 48 = n % 10 := by omega
      rw [hmod]
      have hdm : 10 * (n / 10) + n % 10 = n := Nat.div_add_mod n 10
      ring_nf
      ring_nf at hdm
      linarith [hdm]

theorem natDigits_all_digit (n : Nat) : ∀ c ∈ natDigits n, c.isDigit = true :=
  natDigitsAux_all_digit (n + 1) n (by omega)

theorem natDigits_ne_nil (n : Nat) : natDigits n ≠ [] :=
  natDigitsAux_ne_nil (n + 1) n (by omega)

theorem natDigits_foldl (n : Nat) :
    (natDigits n).foldl (fun acc c => acc * 10 + (c.toNat - 48)) 0 = n := by
  unfold natDigits
  rw [natDigitsAux_foldl (n + 1) n 0 (by omega)]
  omega

theorem digit_not_comma {c : Char} (h : c.isDigit = true) : (c == ',') = false := by
  cases hb : (c == ',') with
  | false => rfl
  | true =>
    have : c = ',' := by simpa using hb
    rw [this] at h
    cases h

theorem digit_not_plus {c : Char} (h : c.isDigit = true) : c ≠ '+' := by
  intro he
  rw [he] at h
  cases h

theorem digit_not_minus {c : Char} (h : c.isDigit = true) : c ≠ '-' := by
  intro he
  rw [he] at h
  cases h

theorem splitOnChar_no_sep (sep : Char) (a : List Char)
    (ha : ∀ c ∈ a, (c == sep) = false) :
    splitOnChar sep a = [a] := by
  induction a with
  | nil => rfl
  | cons c rest ih =>
    unfold splitOnChar
    rw [ha c (by simp)]
    rw [ih (fun c hc => ha c (List.mem_cons_of_mem _ hc))]
    rfl

theorem splitOnChar_append (sep : Char) (a rest : List Char)
    (ha : ∀ c ∈ a, (c == sep) = false) :
    splitOnChar sep (a ++ sep :: rest) = a :: splitOnChar sep rest := by
  induction a with
  | nil =>
    show splitOnChar sep (sep :: rest) = [] :: splitOnChar sep rest
    conv_lhs => rw [splitOnChar]
    rw [show (sep == sep) = true by simp]
    rfl
  | cons c a2 ih =>
    show splitOnChar sep (c :: (a2 ++ sep :: rest)) = (c :: a2) :: splitOnChar sep rest
    conv_lhs => rw [splitOnChar]
    rw [ha c (by simp)]
    rw [ih (fun c hc => ha c (List.mem_cons_of_mem _ hc))]
    rfl

theorem parseUnsigned_digits (bound : Nat) (cs : List Char)
    (hne : cs ≠ []) (hd : ∀ c ∈ cs, c.isDigit = true)
    (hv : cs.foldl (fun acc c => acc * 10 + (c.toNat - 48)) 0 < bound) :
    parseUnsigned bound cs
      = some (cs.foldl (fun acc c => acc * 10 + (c.toNat - 48)) 0) := by
  cases cs with
  | nil => exact absurd rfl hne
  | cons c rest =>
    have hc := hd c (by simp)
    have hcp : c ≠ '+' := digit_not_plus hc
    have hcm : c ≠ '-' := digit_not_minus hc
    unfold parseUnsigned
    have hmatch : (match c :: rest with
        | '+' :: rest => some rest
        | '-' :: _ => none
        | other => some other) = some (c :: rest) := by
      split
      · rename_i heq
        injection heq with h1 h2
        exact absurd h1 hcp
      · rename_i heq
        injection heq with h1 h2
        exact absurd h1 hcm
      · rfl
    simp only [hmatch]
    rw [if_neg (by simp)]
    rw [if_pos (by simpa using List.all_eq_true.mpr hd)]
    rw [if_pos hv]

theorem display_toList (a b c : Nat) :
    (SlideIndex.display ⟨a, b, c⟩).toList
      = natDigits a ++ ',' :: (natDigits b ++ ',' :: natDigits c) := by
  rw [show (SlideIndex.display ⟨a, b, c⟩).toList
      = natDigits a ++ [','] ++ natDigits b ++ [','] ++ natDigits c from rfl]
  simp [List.append_assoc]

/--
C10: the compact string form of a SlideIndex round-trips: for every
SlideIndex whose playlist id fits in u32 and whose entry and page indices
fit in usize, parsing the Display output
playlist_id,entry_index,page_index with FromStr yields Ok of the original
value.
-/
theorem c10_display_fromStr_roundtrip (idx : SlideIndex)
    (h1 : idx.playlist_id < U32) (h2 : idx.entry_index < USIZE)
    (h3 : idx.page_index < USIZE) :
    SlideIndex.fromStr (SlideIndex.display idx) = Except.ok idx := by
  rcases idx with ⟨a, b, c⟩
  simp only at h1 h2 h3
  have hnca : ∀ ch ∈ natDigits a, (ch == ',') = false :=
    fun ch hch => digit_not_comma (natDigits_all_digit a ch hch)
  have hncb : ∀ ch ∈ natDigits b, (ch == ',') = false :=
    fun ch hch => digit_not_comma (natDigits_all_digit b ch hch)
  have hncc : ∀ ch ∈ natDigits c, (ch == ',') = false :=
    fun ch hch => digit_not_comma (natDigits_all_digit c ch hch)
  simp only [SlideIndex.fromStr]
  rw [display_toList a b c]
  rw [splitOnChar_append ',' (natDigits a) _ hnca]
  rw [splitOnChar_append ',' (natDigits b) _ hncb]
  rw [splitOnChar_no_sep ',' (natDigits c) hncc]
  simp only [parseUnsigned_digits U32 (natDigits a) (natDigits_ne_nil a)
      (natDigits_all_digit a) (by rw [natDigits_foldl]; exact h1),
    parseUnsigned_digits USIZE (natDigits b) (natDigits_ne_nil b)
      (natDigits_all_digit b) (by rw [natDigits_foldl]; exact h2),
    parseUnsigned_digits USIZE (natDigits c) (natDigits_ne_nil c)
      (natDigits_all_digit c) (by rw [natDigits_foldl]; exact h3),
    natDigits_foldl]

/-- Witness for C10 at a concrete coordinate. -/
theorem c10_display_fromStr_roundtrip_witness :
    (123 : Nat) < U32 ∧ (45 : Nat) < USIZE ∧ (6 : Nat) < USIZE ∧
      SlideIndex.display ⟨123, 45, 6⟩ = "123,45,6" ∧
      SlideIndex.fromStr (SlideIndex.display ⟨123, 45, 6⟩)
        = Except.ok ⟨123, 45, 6⟩ :=
  ⟨by decide, by decide, by decide, by decide,
   c10_display_fromStr_roundtrip ⟨123, 45, 6⟩ (by decide) (by decide) (by decide)⟩
